/-
Verification of the incremental cache-synchronization engine of the
telegram-scraper-server repository, as a shallow embedding in Lean 4.

Timestamps are modelled as integers (the source stores `datetime` values /
"YYYY-MM-DD HH:MM:SS" strings whose SQL lexicographic order coincides with
chronological order).  Python dictionaries are modelled as association
lists, the SQLite database as explicit record lists, and the async
generators as functions returning the list of their yield events.
-/

import Mathlib

set_option linter.unusedVariables false
set_option linter.unreachableTactic false
set_option linter.unnecessarySeqFocus false
set_option linter.unusedTactic false

namespace TgScraper

/-! ## Data model (`models.py`)

`DateRange` and `TimelineSegment` mirror the dataclasses in
`telegram_scraper/models.py`; `source` is `"cache"` or `"telegram"`. -/

inductive Source where
  | cache
  | telegram
  deriving DecidableEq, Repr

structure DateRange where
  start : Int
  stop : Int
  deriving DecidableEq, Repr

structure TimelineSegment where
  start : Int
  stop : Int
  source : Source
  deriving DecidableEq, Repr

/-! ## Range algebra (`scraper.py`, `find_gaps` / `find_covered_range` /
`build_timeline`) -/

/-- `find_gaps` of `scraper.py`: ranges of the request not covered by the
cached range (at most a "before" gap and an "after" gap). -/
def findGaps (requested : DateRange) (cachedRange : Option DateRange) :
    List DateRange :=
  match cachedRange with
  | none => [requested]
  | some cached =>
      (if requested.start < cached.start then
        [⟨requested.start, min cached.start requested.stop⟩]
      else []) ++
      (if requested.stop > cached.stop then
        [⟨max cached.stop requested.start, requested.stop⟩]
      else [])

/-- `find_covered_range` of `scraper.py`: intersection of the requested and
cached ranges, `none` when empty or inverted. -/
def findCoveredRange (requested : DateRange) (cachedRange : Option DateRange) :
    Option DateRange :=
  match cachedRange with
  | none => none
  | some cached =>
      let overlapStart := max requested.start cached.start
      let overlapStop := min requested.stop cached.stop
      if overlapStart < overlapStop then some ⟨overlapStart, overlapStop⟩
      else none

/-- Comparison used by `build_timeline`'s `segments.sort(key=lambda s: s.start)`. -/
def segLE (a b : TimelineSegment) : Prop := a.start ≤ b.start

instance : DecidableRel segLE := fun a b => by
  unfold segLE; infer_instance

/-- `build_timeline` of `scraper.py`: gaps become `telegram` segments, the
covered range a `cache` segment, sorted chronologically by start. -/
def buildTimeline (covered : Option DateRange) (gaps : List DateRange) :
    List TimelineSegment :=
  let segments :=
    gaps.map (fun g => TimelineSegment.mk g.start g.stop Source.telegram) ++
    (match covered with
     | some c => [TimelineSegment.mk c.start c.stop Source.cache]
     | none => [])
  segments.insertionSort segLE

/-- Abbreviation: the timeline obtained from a request and a cached range,
exactly as computed by the non-`force_refresh` path of
`stream_messages_with_cache`. -/
def timelineFor (requested : DateRange) (cachedRange : Option DateRange) :
    List TimelineSegment :=
  buildTimeline (findCoveredRange requested cachedRange)
    (findGaps requested cachedRange)

/-- The partition property of the timeline, as a reusable lemma. -/
lemma timelineFor_partition (req : DateRange)
    (cached : Option DateRange) (hreq : req.start < req.stop)
    (hcache : ∀ c ∈ cached, c.start ≤ c.stop) :
    (∀ x : Int,
        (∃ s ∈ timelineFor req cached, s.start ≤ x ∧ x ≤ s.stop) ↔
          (req.start ≤ x ∧ x ≤ req.stop)) ∧
      (timelineFor req cached).Pairwise (fun a b => a.stop ≤ b.start) ∧
      (∀ s ∈ timelineFor req cached, s.start < s.stop) := by
  obtain ⟨rs, re⟩ := req
  match cached with
  | none =>
      have hseg : timelineFor ⟨rs, re⟩ none = [⟨rs, re, Source.telegram⟩] := by
        simp [timelineFor, findGaps, findCoveredRange, buildTimeline,
          List.insertionSort]
      rw [hseg]
      refine ⟨fun x => ?_, ?_, ?_⟩ <;> simp_all <;> omega
  | some ⟨cs, ce⟩ =>
      have hcc : cs ≤ ce := hcache ⟨cs, ce⟩ rfl
      simp only at hreq hcc
      by_cases hb : rs < cs <;> by_cases ha : re > ce <;>
        by_cases hcov : max rs cs < min re ce
      · -- before gap, after gap and covered range
        have hseg : timelineFor ⟨rs, re⟩ (some ⟨cs, ce⟩) =
            [⟨rs, cs, Source.telegram⟩, ⟨cs, ce, Source.cache⟩,
             ⟨ce, re, Source.telegram⟩] := by
          simp only [timelineFor, findGaps, findCoveredRange, buildTimeline]
          rw [if_pos (show rs < cs from hb), if_pos (show re > ce from ha),
            if_pos (show max rs cs < min re ce from hcov)]
          simp only [List.map, List.cons_append, List.nil_append,
            List.insertionSort, List.orderedInsert]
          split_ifs <;> simp_all [segLE, TimelineSegment.mk.injEq] <;> omega
        rw [hseg]
        refine ⟨fun x => ?_, ?_, ?_⟩ <;>
          simp_all [List.pairwise_cons] <;> omega
      · -- before and after gaps touching (cached range degenerate)
        have hseg : timelineFor ⟨rs, re⟩ (some ⟨cs, ce⟩) =
            [⟨rs, cs, Source.telegram⟩, ⟨ce, re, Source.telegram⟩] := by
          simp only [timelineFor, findGaps, findCoveredRange, buildTimeline]
          rw [if_pos (show rs < cs from hb), if_pos (show re > ce from ha),
            if_neg (show ¬max rs cs < min re ce from hcov)]
          simp only [List.map, List.cons_append, List.nil_append,
            List.append_nil, List.insertionSort, List.orderedInsert]
          split_ifs <;> simp_all [segLE, TimelineSegment.mk.injEq] <;> omega
        rw [hseg]
        refine ⟨fun x => ?_, ?_, ?_⟩ <;>
          simp_all [List.pairwise_cons] <;> omega
      · -- before gap and covered range, request ends inside cache
        have hseg : timelineFor ⟨rs, re⟩ (some ⟨cs, ce⟩) =
            [⟨rs, cs, Source.telegram⟩, ⟨cs, re, Source.cache⟩] := by
          simp only [timelineFor, findGaps, findCoveredRange, buildTimeline]
          rw [if_pos (show rs < cs from hb), if_neg (show ¬re > ce from ha),
            if_pos (show max rs cs < min re ce from hcov)]
          simp only [List.map, List.cons_append, List.nil_append,
            List.append_nil, List.insertionSort, List.orderedInsert]
          split_ifs <;> simp_all [segLE, TimelineSegment.mk.injEq] <;> omega
        rw [hseg]
        refine ⟨fun x => ?_, ?_, ?_⟩ <;>
          simp_all [List.pairwise_cons] <;> omega
      · -- request entirely before the cached range
        have hseg : timelineFor ⟨rs, re⟩ (some ⟨cs, ce⟩) =
            [⟨rs, re, Source.telegram⟩] := by
          simp only [timelineFor, findGaps, findCoveredRange, buildTimeline]
          rw [if_pos (show rs < cs from hb), if_neg (show ¬re > ce from ha),
            if_neg (show ¬max rs cs < min re ce from hcov)]
          simp only [List.map, List.cons_append, List.nil_append,
            List.append_nil, List.insertionSort, List.orderedInsert]
          simp_all [TimelineSegment.mk.injEq] <;> omega
        rw [hseg]
        refine ⟨fun x => ?_, ?_, ?_⟩ <;> simp_all <;> omega
      · -- covered range then after gap
        have hseg : timelineFor ⟨rs, re⟩ (some ⟨cs, ce⟩) =
            [⟨rs, ce, Source.cache⟩, ⟨ce, re, Source.telegram⟩] := by
          simp only [timelineFor, findGaps, findCoveredRange, buildTimeline]
          rw [if_neg (show ¬rs < cs from hb), if_pos (show re > ce from ha),
            if_pos (show max rs cs < min re ce from hcov)]
          simp only [List.map, List.cons_append, List.nil_append,
            List.insertionSort, List.orderedInsert]
          split_ifs <;> simp_all [segLE, TimelineSegment.mk.injEq] <;> omega
        rw [hseg]
        refine ⟨fun x => ?_, ?_, ?_⟩ <;>
          simp_all [List.pairwise_cons] <;> omega
      · -- request entirely after the cached range
        have hseg : timelineFor ⟨rs, re⟩ (some ⟨cs, ce⟩) =
            [⟨rs, re, Source.telegram⟩] := by
          simp only [timelineFor, findGaps, findCoveredRange, buildTimeline]
          rw [if_neg (show ¬rs < cs from hb), if_pos (show re > ce from ha),
            if_neg (show ¬max rs cs < min re ce from hcov)]
          simp only [List.map, List.cons_append, List.nil_append,
            List.insertionSort, List.orderedInsert]
          simp_all [TimelineSegment.mk.injEq] <;> omega
        rw [hseg]
        refine ⟨fun x => ?_, ?_, ?_⟩ <;> simp_all <;> omega
      · -- request entirely inside the cached range
        have hseg : timelineFor ⟨rs, re⟩ (some ⟨cs, ce⟩) =
            [⟨rs, re, Source.cache⟩] := by
          simp only [timelineFor, findGaps, findCoveredRange, buildTimeline]
          rw [if_neg (show ¬rs < cs from hb), if_neg (show ¬re > ce from ha),
            if_pos (show max rs cs < min re ce from hcov)]
          simp only [List.map, List.nil_append, List.insertionSort,
            List.orderedInsert]
          simp_all [TimelineSegment.mk.injEq] <;> omega
        rw [hseg]
        refine ⟨fun x => ?_, ?_, ?_⟩ <;> simp_all <;> omega
      · exact absurd hreq (by omega)

/-- **C1.** For every requested range (`start < end`, the data-model
invariant) and every cached range (`min ≤ max`, as produced by
`get_cached_date_range`), the pieces returned by `find_gaps` together with
the piece from `find_covered_range`, sorted by start (exactly what
`build_timeline` produces), partition the requested range: a point lies in
some piece iff it lies in the requested range, consecutive pieces meet only
at their endpoints (no two pieces overlap), and every piece is nonempty. -/
theorem gaps_cover_partition_requested (req : DateRange)
    (cached : Option DateRange) (hreq : req.start < req.stop)
    (hcache : ∀ c ∈ cached, c.start ≤ c.stop) :
    (∀ x : Int,
        (∃ s ∈ timelineFor req cached, s.start ≤ x ∧ x ≤ s.stop) ↔
          (req.start ≤ x ∧ x ≤ req.stop)) ∧
      (timelineFor req cached).Pairwise (fun a b => a.stop ≤ b.start) ∧
      (∀ s ∈ timelineFor req cached, s.start < s.stop) :=
  timelineFor_partition req cached hreq hcache

/-- Witness for `gaps_cover_partition_requested` at the concrete request
`[0, 10]` against the cached range `[3, 7]`. -/
theorem gaps_cover_partition_requested_witness :
    (0 : Int) < 10 ∧ (∀ c ∈ some (DateRange.mk 3 7), c.start ≤ c.stop) ∧
      ((∀ x : Int,
          (∃ s ∈ timelineFor ⟨0, 10⟩ (some ⟨3, 7⟩),
              s.start ≤ x ∧ x ≤ s.stop) ↔ (0 ≤ x ∧ x ≤ 10)) ∧
        (timelineFor ⟨0, 10⟩ (some ⟨3, 7⟩)).Pairwise
          (fun a b => a.stop ≤ b.start) ∧
        (∀ s ∈ timelineFor ⟨0, 10⟩ (some ⟨3, 7⟩), s.start < s.stop)) :=
  ⟨by norm_num, by simp,
    gaps_cover_partition_requested ⟨0, 10⟩ (some ⟨3, 7⟩) (by norm_num)
      (by simp)⟩

/-! ## Media downloader retry loop (`media_downloader.py`, `download_media`)

The `for attempt in range(3)` loop at the end of `download_media`.  The
interaction with Telethon is abstracted as an oracle giving the outcome of
each attempt: the awaited `message.download_media` call either returns a
path (possibly empty / not on disk), raises `FloodWaitError` with a
signalled wait, or raises some other exception. -/

inductive AttemptOutcome where
  | ok (path : Option String) (onDisk : Bool)
  | floodWait (seconds : Nat)
  | err (name : String)
  deriving DecidableEq, Repr

inductive DLStatus where
  | downloaded
  | skipped
  | failed
  deriving DecidableEq, Repr

/-- `MediaDownloadResult` dataclass of `media_downloader.py`. -/
structure MediaDownloadResult where
  status : DLStatus
  path : Option String := none
  errorText : Option String := none
  deriving DecidableEq, Repr

/-- One iteration state of the retry loop: given the outcome oracle, the
current `attempt` index and the remaining loop iterations, return the
result together with the list of sleeps performed (in seconds) and the
number of attempts consumed.  Mirrors `media_downloader.py` lines 202-233:
a `FloodWaitError` sleeps exactly `e.seconds` before the next attempt, any
other exception sleeps `2 ** attempt`, and the third failure returns a
`failed` result instead of raising. -/
def retryLoop (outcomes : Nat → AttemptOutcome) :
    Nat → Nat → MediaDownloadResult × List Nat × Nat
  | _, 0 =>
      (⟨DLStatus.failed, none, some "download_exhausted_retries"⟩, [], 0)
  | attempt, fuel + 1 =>
      match outcomes attempt with
      | .ok path onDisk =>
          if path.isSome && onDisk then
            (⟨DLStatus.downloaded, path, none⟩, [], 1)
          else
            (⟨DLStatus.failed, none, some "download_returned_empty_path"⟩,
              [], 1)
      | .floodWait s =>
          if attempt < 2 then
            let rest := retryLoop outcomes (attempt + 1) fuel
            (rest.1, s :: rest.2.1, rest.2.2 + 1)
          else
            (⟨DLStatus.failed, none, some "FloodWaitError"⟩, [], 1)
      | .err n =>
          if attempt < 2 then
            let rest := retryLoop outcomes (attempt + 1) fuel
            (rest.1, 2 ^ attempt :: rest.2.1, rest.2.2 + 1)
          else
            (⟨DLStatus.failed, none, some n⟩, [], 1)

/-- The retry section of `download_media`: `for attempt in range(3)`. -/
def downloadMediaRetry (outcomes : Nat → AttemptOutcome) :
    MediaDownloadResult × List Nat × Nat :=
  retryLoop outcomes 0 3

/-- An attempt outcome that does not produce a `downloaded`/immediate
result: the attempt raised. -/
def failingOutcome : AttemptOutcome → Prop
  | .ok _ _ => False
  | .floodWait _ => True
  | .err _ => True

instance : DecidablePred failingOutcome := fun o => by
  cases o <;> simp [failingOutcome] <;> infer_instance

lemma retryLoop_attempts_le (outcomes : Nat → AttemptOutcome) :
    ∀ fuel attempt, (retryLoop outcomes attempt fuel).2.2 ≤ fuel := by
  intro fuel
  induction fuel with
  | zero => intro attempt; simp [retryLoop]
  | succ n ih =>
      intro attempt
      unfold retryLoop
      cases outcomes attempt with
      | ok path onDisk => dsimp only; split_ifs <;> simp
      | floodWait s =>
          dsimp only; split_ifs <;> simp
          exact ih (attempt + 1)
      | err nm =>
          dsimp only; split_ifs <;> simp
          exact ih (attempt + 1)

lemma retryLoop_sleeps (outcomes : Nat → AttemptOutcome) :
    ∀ fuel attempt k v,
      (retryLoop outcomes attempt fuel).2.1[k]? = some v →
      (∃ s, outcomes (attempt + k) = .floodWait s ∧ v = s) ∨
      (∃ n, outcomes (attempt + k) = .err n ∧ v = 2 ^ (attempt + k)) := by
  intro fuel
  induction fuel with
  | zero => intro attempt k v hk; simp [retryLoop] at hk
  | succ n ih =>
      intro attempt k v hk
      unfold retryLoop at hk
      cases houtc : outcomes attempt with
      | ok path onDisk =>
          rw [houtc] at hk; dsimp only at hk; split_ifs at hk <;> simp at hk
      | floodWait s =>
          rw [houtc] at hk; dsimp only at hk
          split_ifs at hk with hlt
          · match k with
            | 0 =>
                left
                refine ⟨s, by simpa using houtc, ?_⟩
                simpa using hk.symm
            | k + 1 =>
                have := ih (attempt + 1) k v (by simpa using hk)
                simpa [Nat.add_right_comm, Nat.add_assoc] using this
          · simp at hk
      | err nm =>
          rw [houtc] at hk; dsimp only at hk
          split_ifs at hk with hlt
          · match k with
            | 0 =>
                right
                refine ⟨nm, by simpa using houtc, ?_⟩
                simpa using hk.symm
            | k + 1 =>
                have := ih (attempt + 1) k v (by simpa using hk)
                simpa [Nat.add_right_comm, Nat.add_assoc] using this
          · simp at hk

lemma retryLoop_all_fail (outcomes : Nat → AttemptOutcome) :
    ∀ fuel attempt,
      (∀ k, attempt ≤ k → k < attempt + fuel → failingOutcome (outcomes k)) →
      (retryLoop outcomes attempt fuel).1.status = DLStatus.failed := by
  intro fuel
  induction fuel with
  | zero => intro attempt _; simp [retryLoop]
  | succ n ih =>
      intro attempt hfail
      unfold retryLoop
      cases houtc : outcomes attempt with
      | ok path onDisk =>
          exact absurd (hfail attempt le_rfl (by omega))
            (by rw [houtc]; simp [failingOutcome])
      | floodWait s =>
          dsimp only; split_ifs
          · exact ih (attempt + 1) (fun k h1 h2 => hfail k (by omega) (by omega))
          · rfl
      | err nm =>
          dsimp only; split_ifs
          · exact ih (attempt + 1) (fun k h1 h2 => hfail k (by omega) (by omega))
          · rfl

/-- **C9.** `download_media` makes at most 3 attempts; the sleep performed
after attempt `k` is exactly the signalled number of seconds when attempt
`k` hit a rate-limit signal, and exactly `2 ^ k` seconds when it hit any
other transient failure; and when all three attempts raise, the function
returns a `failed` result (a value, not an exception — the model is total
and every branch produces a `MediaDownloadResult`). -/
theorem download_media_retry_policy (outcomes : Nat → AttemptOutcome) :
    (downloadMediaRetry outcomes).2.2 ≤ 3 ∧
      (∀ k v, (downloadMediaRetry outcomes).2.1[k]? = some v →
        (∃ s, outcomes k = .floodWait s ∧ v = s) ∨
        (∃ n, outcomes k = .err n ∧ v = 2 ^ k)) ∧
      ((∀ k < 3, failingOutcome (outcomes k)) →
        (downloadMediaRetry outcomes).1.status = DLStatus.failed) := by
  refine ⟨retryLoop_attempts_le outcomes 3 0, fun k v hk => ?_, fun hfail => ?_⟩
  · have := retryLoop_sleeps outcomes 3 0 k v hk
    simpa using this
  · exact retryLoop_all_fail outcomes 3 0 (fun k _ h2 => hfail k (by omega))

/-! ## Python dictionaries

API response items are Python dicts with string keys; modelled as
association lists over a value type covering the field types in play. -/

inductive Val where
  | s (x : String)
  | i (n : Int)
  | null
  deriving DecidableEq, Repr

/-- An API item / Python dict. -/
abbrev Item := List (String × Val)

/-- `dict.pop(key, None)`: remove the entry with the given key. -/
def popKey (k : String) : Item → Item
  | [] => []
  | (k', v) :: rest => if k' = k then rest else (k', v) :: popKey k rest

/-- Lookup of a key in a dict. -/
def getKey (k : String) : Item → Option Val
  | [] => none
  | (k', v) :: rest => if k' = k then some v else getKey k rest

/-- `transform_message_to_response` of `scraper.py`: pops the internal
database fields `id`, `channel_id` and `media_path` and returns the dict
otherwise unchanged. -/
def transformMessageToResponse (msgDict : Item) : Item :=
  popKey "media_path" (popKey "channel_id" (popKey "id" msgDict))

/-! ## Message model (`models.py`, `MessageData`) -/

/-- `MessageData` dataclass of `telegram_scraper/models.py`.  Dates are
integer timestamps (the source formats them as strings whose order agrees
with the timestamp order). -/
structure MessageData where
  message_id : Nat
  channel_id : Int
  date : Int
  edit_date : Option Int
  sender_id : Int
  first_name : Option String
  last_name : Option String
  username : Option String
  message : String
  reply_to : Option Nat
  post_author : Option String
  is_forwarded : Int
  forwarded_from_channel_id : Option Int
  media_type : Option String
  media_uuid : Option String
  media_path : Option String
  media_filename : Option String
  media_size : Option Int
  channel_name : Option String := none
  deriving DecidableEq, Repr

/-! ## Database rows (`database/models.py`) and operations
(`database/operations.py`)

The SQLite tables are lists of rows; a session is a `Store` holding the
last committed database plus the working (pending) database, with
`commit` publishing the pending state and `rollback` discarding it. -/

/-- A row of the `messages` table. -/
structure StoredMsg where
  id : Nat
  channel_id : Int
  message_id : Nat
  date : Int
  edit_date : Option Int
  sender_id : Int
  message : String
  media_uuid : Option String
  reply_to : Option Nat
  post_author : Option String
  is_forwarded : Int
  forwarded_from_channel_id : Option Int
  deriving DecidableEq, Repr

/-- A row of the `users` table. -/
structure UserRow where
  user_id : Int
  first_name : Option String
  last_name : Option String
  username : Option String
  deriving DecidableEq, Repr

/-- A row of the `media_files` table. -/
structure MediaFileRow where
  uuid : String
  file_size : Option Int
  media_type : Option String
  original_filename : Option String
  file_path : Option String
  deriving DecidableEq, Repr

/-- The per-channel database. -/
structure DB where
  messages : List StoredMsg
  users : List UserRow
  mediaFiles : List MediaFileRow
  nextRowId : Nat
  deriving DecidableEq, Repr

def DB.empty : DB := ⟨[], [], [], 1⟩

/-- A SQLModel session over a database: `committed` is what other readers
observe, `pending` the session's working state.  `session.commit()`
publishes `pending`; `session.rollback()` resets `pending` to
`committed`. -/
structure Store where
  committed : DB
  pending : DB
  deriving DecidableEq, Repr

def Store.ofDb (db : DB) : Store := ⟨db, db⟩

def Store.commit (st : Store) : Store := ⟨st.pending, st.pending⟩

def Store.rollback (st : Store) : Store := ⟨st.committed, st.committed⟩

/-- `upsert_user` (without the auto-commit, as called from
`batch_upsert_messages`). -/
def upsertUser (db : DB) (userId : Int) (firstName lastName username : Option String) : DB :=
  if db.users.any (fun u => u.user_id == userId) then
    { db with users := db.users.map (fun u =>
        if u.user_id == userId then ⟨userId, firstName, lastName, username⟩
        else u) }
  else
    { db with users := db.users ++ [⟨userId, firstName, lastName, username⟩] }

/-- One step of `batch_upsert_messages`: upsert the sender, then insert the
message or (with `replace_existing`) update the row with the same
`(channel_id, message_id)` key in place; `media_uuid` is untouched (it is
updated separately by `store_media_with_uuid`). -/
def upsertMessage (channelId : Int) (replaceExisting : Bool) (db : DB)
    (m : MessageData) : DB :=
  let db := upsertUser db m.sender_id m.first_name m.last_name m.username
  if db.messages.any (fun r =>
      r.channel_id == channelId && r.message_id == m.message_id) then
    if replaceExisting then
      { db with messages := db.messages.map (fun r =>
          if r.channel_id == channelId && r.message_id == m.message_id then
            { r with
                date := m.date
                edit_date := m.edit_date
                sender_id := m.sender_id
                message := m.message
                reply_to := m.reply_to
                post_author := m.post_author
                is_forwarded := m.is_forwarded
                forwarded_from_channel_id := m.forwarded_from_channel_id }
          else r) }
    else db
  else
    { db with
        messages := db.messages ++
          [⟨db.nextRowId, channelId, m.message_id, m.date, m.edit_date,
            m.sender_id, m.message, none, m.reply_to, m.post_author,
            m.is_forwarded, m.forwarded_from_channel_id⟩]
        nextRowId := db.nextRowId + 1 }

/-- `batch_upsert_messages` of `operations.py` (the pure part; committing
is the caller's business when `auto_commit=False`). -/
def batchUpsertMessages (db : DB) (messages : List MessageData)
    (channelId : Int) (replaceExisting : Bool) : DB :=
  messages.foldl (upsertMessage channelId replaceExisting) db

/-- `get_cached_date_range` of `operations.py`: `(min(date), max(date))`
over the channel's messages, `none` when there are none. -/
def getCachedDateRange (db : DB) (channelId : Int) : Option (Int × Int) :=
  match (db.messages.filter (fun r => r.channel_id == channelId)).map
      (fun r => r.date) with
  | [] => none
  | d :: ds => some (ds.foldl min d, ds.foldl max d)

/-- `store_media_with_uuid` of `operations.py`, WITHOUT its internal
`session.commit()` (handled by the caller model): look up the message by
`(channel_id, message_id)`; if it already references a `MediaFile`, update
that row in place (overwriting `file_path` only when the new one is not
null) and return the existing identifier, otherwise create a new
`MediaFile` with the fresh identifier and point the message at it.
Returns the updated database and the returned uuid. -/
def storeMediaWithUuid (db : DB) (channelId : Int) (messageId : Nat)
    (fileSize : Option Int) (mediaType : Option String)
    (originalFilename : Option String) (filePath : Option String)
    (freshUuid : String) : DB × String × Bool :=
  let message? := db.messages.find? (fun r =>
    r.channel_id == channelId && r.message_id == messageId)
  let existingUuid := message?.bind (fun r => r.media_uuid)
  match existingUuid with
  | some u =>
      if db.mediaFiles.any (fun f => f.uuid == u) then
        ({ db with mediaFiles := db.mediaFiles.map (fun f =>
            if f.uuid == u then
              { f with
                  original_filename := originalFilename
                  file_size := fileSize
                  media_type := some (mediaType.getD "unknown")
                  file_path := match filePath with
                    | some p => some p
                    | none => f.file_path }
            else f) }, u, false)
      else
        storeMediaNew db channelId messageId fileSize mediaType
          originalFilename filePath freshUuid
  | none =>
      storeMediaNew db channelId messageId fileSize mediaType
        originalFilename filePath freshUuid
where
  /-- The "create new MediaFile entry" tail of `store_media_with_uuid`. -/
  storeMediaNew (db : DB) (channelId : Int) (messageId : Nat)
      (fileSize : Option Int) (mediaType : Option String)
      (originalFilename : Option String) (filePath : Option String)
      (freshUuid : String) : DB × String × Bool :=
    ({ db with
        mediaFiles := db.mediaFiles ++
          [⟨freshUuid, fileSize, some (mediaType.getD "unknown"),
            originalFilename, filePath⟩]
        messages := db.messages.map (fun r =>
          if r.channel_id == channelId && r.message_id == messageId then
            { r with media_uuid := some freshUuid }
          else r) }, freshUuid, true)

/-! ## Remote source model and the media policy
(`media_downloader.py`, policy section of `download_media`)

A remote (Telethon) message is abstracted to the attributes the scraper
reads; the outcome of an actual network download attempt is an oracle
`net` keyed by message id. -/

structure RemoteMedia where
  isWebPage : Bool
  size : Option Int
  mtype : String
  filename : Option String
  deriving DecidableEq, Repr

structure RemoteMsg where
  id : Nat
  date : Int
  edit_date : Option Int
  sender_id : Int
  first_name : Option String
  last_name : Option String
  username : Option String
  text : String
  reply_to : Option Nat
  post_author : Option String
  is_forwarded : Bool
  forwarded_from_channel_id : Option Int
  media : Option RemoteMedia
  deriving DecidableEq, Repr

/-- The policy portion of `download_media`: web pages are skipped, media
whose Telegram-reported size exceeds the configured limit is skipped with
a `skipped_by_size_limit` reason and no path; otherwise the result of the
actual network download (the oracle's answer) is returned. -/
def downloadMediaPolicy (media : RemoteMedia) (maxBytes : Option Int)
    (netResult : MediaDownloadResult) : MediaDownloadResult :=
  if media.isWebPage then ⟨DLStatus.skipped, none, none⟩
  else
    match maxBytes, media.size with
    | some mb, some sz =>
        if sz > mb then
          ⟨DLStatus.skipped, none, some "skipped_by_size_limit"⟩
        else netResult
    | _, _ => netResult

/-! ## Remote batch fetcher (`scraper.py`, `download_from_telegram_batched`) -/

/-- The per-message transformation of `download_from_telegram_batched`
(lines 161–231): build a `MessageData` from the remote message, attempting
the media download when `scrape_media` is set and the media is not a web
page; `media_path`/`media_size` are only set when the download result is
`downloaded` with a path (`media_size` from the on-disk size oracle). -/
def processMessage (channelId : Int) (channelName : Option String)
    (scrapeMedia : Bool) (maxBytes : Option Int)
    (net : Nat → MediaDownloadResult) (diskSize : String → Option Int)
    (m : RemoteMsg) : MessageData :=
  let mediaType := m.media.map (fun med => med.mtype)
  let dl : MediaDownloadResult :=
    match m.media with
    | some med =>
        if scrapeMedia && !med.isWebPage then
          downloadMediaPolicy med maxBytes (net m.id)
        else ⟨DLStatus.skipped, none, none⟩
    | none => ⟨DLStatus.skipped, none, none⟩
  let mediaPath : Option String :=
    if dl.status = DLStatus.downloaded then dl.path else none
  let mediaSize : Option Int :=
    match mediaPath with
    | some p => diskSize p
    | none => none
  { message_id := m.id
    channel_id := channelId
    channel_name := channelName
    date := m.date
    edit_date := m.edit_date
    sender_id := m.sender_id
    first_name := m.first_name
    last_name := m.last_name
    username := m.username
    message := m.text
    media_type := mediaType
    media_path := mediaPath
    media_size := mediaSize
    media_uuid := none
    media_filename := none
    reply_to := m.reply_to
    post_author := m.post_author
    is_forwarded := if m.is_forwarded then 1 else 0
    forwarded_from_channel_id := m.forwarded_from_channel_id }

/-- Where a simulated storage failure strikes inside one batch save. -/
inductive FailurePoint where
  | noFail
  | atStore (i : Nat)
  | atFinalCommit
  deriving DecidableEq, Repr

/-- The `store_media_with_uuid` loop of the batch save: for each message of
the batch with a non-null `media_path`, call `store_media_with_uuid`
(which ends in `session.commit()`, so each call publishes the session's
whole pending state) and record the returned uuid on the message.  `i`
numbers the store calls; the failure oracle may make the `i`-th call
raise, upon which the save's exception handler rolls back and re-raises.
Returns the store, the updated batch and the next uuid counter. -/
def storeMediaLoop (channelId : Int) (uuids : Nat → String)
    (fail : FailurePoint) :
    Store → List MessageData → Nat → Nat →
      Except Store (Store × List MessageData × Nat)
  | st, [], _, ctr => Except.ok (st, [], ctr)
  | st, m :: rest, i, ctr =>
      if m.media_path.isSome then
        if fail = FailurePoint.atStore i then Except.error st.rollback
        else
          let res := storeMediaWithUuid st.pending channelId
            m.message_id m.media_size m.media_type none m.media_path
            (uuids ctr)
          let st' := (Store.mk st.committed res.1).commit
          let ctr' := if res.2.2 then ctr + 1 else ctr
          (storeMediaLoop channelId uuids fail st' rest (i + 1) ctr').map
            (fun r =>
              (r.1, { m with media_uuid := some res.2.1 } :: r.2.1, r.2.2))
      else
        (storeMediaLoop channelId uuids fail st rest i ctr).map
          (fun r => (r.1, m :: r.2.1, r.2.2))

/-- The "save batch to DB atomically" block of
`download_from_telegram_batched` (lines 234–254 / 264–284): insert the
batch without committing, run the `store_media_with_uuid` loop, then
`session.commit()`; on any exception, `session.rollback()` and re-raise.
The `Except.error` carries the session state after the rollback. -/
def saveBatch (st : Store) (batch : List MessageData) (channelId : Int)
    (uuids : Nat → String) (fail : FailurePoint) (ctr : Nat) :
    Except Store (Store × List MessageData × Nat) :=
  let stIns : Store :=
    ⟨st.committed, batchUpsertMessages st.pending batch channelId true⟩
  match storeMediaLoop channelId uuids fail stIns batch 0 ctr with
  | Except.error st' => Except.error st'
  | Except.ok (st2, batch', ctr') =>
      if fail = FailurePoint.atFinalCommit then Except.error st2.rollback
      else Except.ok (st2.commit, batch', ctr')

/-- A yield event of the batched fetcher: the batch handed to the caller
together with the committed database at the moment of the yield. -/
structure YieldEvent where
  batch : List MessageData
  committedAtYield : DB
  deriving DecidableEq, Repr

/-- The batching loop of `download_from_telegram_batched`: accumulate
transformed messages, save and yield whenever the batch reaches
`batch_size`, save and yield the remainder at the end; an exception from a
save aborts the generator (the error flag in the result). -/
def fetchLoop (channelId : Int) (channelName : Option String)
    (batchSize : Nat) (scrapeMedia : Bool) (maxBytes : Option Int)
    (net : Nat → MediaDownloadResult) (diskSize : String → Option Int)
    (uuids : Nat → String) (fail : Nat → FailurePoint) :
    Store → List RemoteMsg → List MessageData → Nat → Nat →
      List YieldEvent × Store × Nat × Bool
  | st, [], batch, saveIdx, ctr =>
      match batch with
      | [] => ([], st, ctr, false)
      | _ =>
          match saveBatch st batch channelId uuids (fail saveIdx) ctr with
          | Except.error st' => ([], st', ctr, true)
          | Except.ok (st', batch', ctr') =>
              ([⟨batch', st'.committed⟩], st', ctr', false)
  | st, m :: rest, batch, saveIdx, ctr =>
      let md := processMessage channelId channelName scrapeMedia maxBytes
        net diskSize m
      let batch' := batch ++ [md]
      if batchSize ≤ batch'.length then
        match saveBatch st batch' channelId uuids (fail saveIdx) ctr with
        | Except.error st' => ([], st', ctr, true)
        | Except.ok (st2, savedBatch, ctr') =>
            let r := fetchLoop channelId channelName batchSize scrapeMedia
              maxBytes net diskSize uuids fail st2 rest [] (saveIdx + 1) ctr'
            (⟨savedBatch, st2.committed⟩ :: r.1, r.2)
      else
        fetchLoop channelId channelName batchSize scrapeMedia maxBytes net
          diskSize uuids fail st rest batch' saveIdx ctr

/-- The Telethon iterator `client.iter_messages(entity, offset_date=start,
reverse=True)` over a channel whose full history is `channel` (in upload
order): the messages dated strictly after `start`, oldest first. -/
def telegramIter (channel : List RemoteMsg) (startDate : Int) :
    List RemoteMsg :=
  channel.filter (fun m => startDate < m.date)

/-- `download_from_telegram_batched`: walk the remote iterator from
`start_date`, stop at the first message dated after `end_date` (the
`break`), batch, save, yield. -/
def downloadFromTelegramBatched (channel : List RemoteMsg) (st : Store)
    (channelId : Int) (channelName : Option String)
    (startDate endDate : Int) (batchSize : Nat) (scrapeMedia : Bool)
    (maxBytes : Option Int) (net : Nat → MediaDownloadResult)
    (diskSize : String → Option Int) (uuids : Nat → String)
    (fail : Nat → FailurePoint) (ctr : Nat) :
    List YieldEvent × Store × Nat × Bool :=
  fetchLoop channelId channelName batchSize scrapeMedia maxBytes net
    diskSize uuids fail st
    ((telegramIter channel startDate).takeWhile (fun m => m.date ≤ endDate))
    [] 0 ctr

/-! ## Chunking

The re-buffering loops of `stream_messages_with_cache`
(`while len(client_buffer) >= client_batch_size: yield buffer[:n]; ...`)
and the OFFSET/LIMIT pagination of `iter_messages_in_range` both cut a
list into consecutive chunks of a given size. -/

/-- Cut a list into chunks of `c` (fuel-driven; `fuel ≥ length` suffices
when `c > 0`).  The last chunk may be shorter; no empty chunk is
produced. -/
def chunksGo (c : Nat) : Nat → List α → List (List α)
  | _, [] => []
  | 0, l => [l]
  | fuel + 1, l => l.take c :: chunksGo c fuel (l.drop c)

/-- All consecutive `c`-chunks of a list, the last possibly undersized. -/
def chunkList (c : Nat) (l : List α) : List (List α) :=
  chunksGo c l.length l

/-- Only the full `c`-chunks of a list: what the client buffer loop has
emitted when the stream aborts before the final flush. -/
def fullChunksGo (c : Nat) : Nat → List α → List (List α)
  | _, [] => []
  | 0, _ => []
  | fuel + 1, l => if c ≤ l.length then l.take c :: fullChunksGo c fuel (l.drop c) else []

def fullChunks (c : Nat) (l : List α) : List (List α) :=
  fullChunksGo c l.length l

/-! ## Cache reader (`operations.py`, `iter_messages_in_range` and the
media-info queries) -/

/-- Ordering of message rows by date (the reader's `ORDER BY date`). -/
def dateLE (a b : StoredMsg) : Prop := a.date ≤ b.date

instance : DecidableRel dateLE := fun a b => by
  unfold dateLE; infer_instance

/-- The rows `iter_messages_in_range` pages through: the channel's
messages with `start_date ≤ date ≤ end_date`, ordered by date. -/
def cacheRows (db : DB) (channelId : Int) (startDate endDate : Int) :
    List StoredMsg :=
  (db.messages.filter (fun r =>
    r.channel_id == channelId && decide (startDate ≤ r.date) &&
      decide (r.date ≤ endDate))).insertionSort dateLE

def optStr : Option String → Val
  | some x => Val.s x
  | none => Val.null

def optInt : Option Int → Val
  | some n => Val.i n
  | none => Val.null

def optNat : Option Nat → Val
  | some n => Val.i n
  | none => Val.null

/-- The row dict built by `iter_messages_in_range` (message joined with its
sender's `users` row). -/
def rowToDict (db : DB) (r : StoredMsg) : Item :=
  let u := db.users.find? (fun u => u.user_id == r.sender_id)
  [("id", Val.i r.id),
   ("channel_id", Val.i r.channel_id),
   ("message_id", Val.i r.message_id),
   ("date", Val.i r.date),
   ("edit_date", optInt r.edit_date),
   ("sender_id", Val.i r.sender_id),
   ("first_name", optStr (u.bind (fun u => u.first_name))),
   ("last_name", optStr (u.bind (fun u => u.last_name))),
   ("username", optStr (u.bind (fun u => u.username))),
   ("message", Val.s r.message),
   ("reply_to", optNat r.reply_to),
   ("post_author", optStr r.post_author),
   ("is_forwarded", Val.i r.is_forwarded),
   ("forwarded_from_channel_id", optInt r.forwarded_from_channel_id),
   ("media_uuid", optStr r.media_uuid)]

/-- `iter_messages_in_range` of `operations.py`: the ordered row dicts in
`batch_size` pages (OFFSET/LIMIT over the `ORDER BY date` query). -/
def iterMessagesInRange (db : DB) (channelId : Int)
    (startDate endDate : Int) (batchSize : Nat) : List (List Item) :=
  chunkList batchSize
    ((cacheRows db channelId startDate endDate).map (rowToDict db))

/-- `get_media_uuid_by_message_id` of `operations.py`. -/
def getMediaUuidByMessageId (db : DB) (channelId : Int) (messageId : Nat) :
    Option String :=
  (db.messages.find? (fun r =>
    r.channel_id == channelId && r.message_id == messageId)).bind
    (fun r => r.media_uuid)

/-- `get_media_info_by_uuid` of `operations.py`. -/
def getMediaInfoByUuid (db : DB) (mediaUuid : String) : Option MediaFileRow :=
  db.mediaFiles.find? (fun f => f.uuid == mediaUuid)

/-- `dict[key] = value`: overwrite or append. -/
def setKey (k : String) (v : Val) : Item → Item
  | [] => [(k, v)]
  | (k', v') :: rest => if k' = k then (k, v) :: rest else (k', v') :: setKey k v rest

/-- Model of `Path(p).name`: the final path component. -/
def pathName (p : String) : String := (p.splitOn "/").getLastD p

/-- The media enrichment of a cache row dict in
`stream_messages_with_cache` (lines 372–400): set `media_type`,
`media_uuid`, `media_size` and `media_filename` from the `MediaFile` table
(`media_filename` is only the final path component of `file_path`). -/
def cacheEnrichedDict (db : DB) (channelId : Int) (r : StoredMsg) : Item :=
  let msgDict := rowToDict db r
  match getMediaUuidByMessageId db channelId r.message_id with
  | some u =>
      match getMediaInfoByUuid db u with
      | some info =>
          setKey "media_filename"
            (match info.file_path with
             | some p => Val.s (pathName p)
             | none => Val.null)
            (setKey "media_size" (optInt info.file_size)
              (setKey "media_uuid" (Val.s info.uuid)
                (setKey "media_type"
                  (Val.s (info.media_type.getD "unknown")) msgDict)))
      | none =>
          setKey "media_filename" Val.null
            (setKey "media_size" Val.null
              (setKey "media_uuid" Val.null
                (setKey "media_type" Val.null msgDict)))
  | none =>
      setKey "media_filename" Val.null
        (setKey "media_size" Val.null
          (setKey "media_uuid" Val.null
            (setKey "media_type" Val.null msgDict)))

/-- The cache-segment item construction of `stream_messages_with_cache`
(lines 361–404): row dict, media enrichment, then
`transform_message_to_response`. -/
def cacheItem (db : DB) (channelId : Int) (r : StoredMsg) : Item :=
  transformMessageToResponse (cacheEnrichedDict db channelId r)

/-- The literal dict `stream_messages_with_cache` builds from a
`MessageData` of a telegram segment (lines 432–449). -/
def telegramDict (msg : MessageData) : Item :=
  let mediaFilename := msg.media_path.map pathName
  [("message_id", Val.i msg.message_id),
     ("date", Val.i msg.date),
     ("edit_date", optInt msg.edit_date),
     ("sender_id", Val.i msg.sender_id),
     ("first_name", optStr msg.first_name),
     ("last_name", optStr msg.last_name),
     ("username", optStr msg.username),
     ("message", Val.s msg.message),
     ("reply_to", optNat msg.reply_to),
     ("post_author", optStr msg.post_author),
     ("is_forwarded", Val.i msg.is_forwarded),
     ("forwarded_from_channel_id", optInt msg.forwarded_from_channel_id),
     ("media_type", optStr msg.media_type),
     ("media_uuid", optStr msg.media_uuid),
     ("media_filename", optStr mediaFilename),
     ("media_size", optInt msg.media_size)]

/-- The telegram-segment item construction of `stream_messages_with_cache`
(lines 426–451): the literal dict, then `transform_message_to_response`. -/
def telegramItem (msg : MessageData) : Item :=
  transformMessageToResponse (telegramDict msg)

/-! ## Sync orchestrator (`scraper.py`, `stream_messages_with_cache`) -/

/-- The timeline computation at the top of `stream_messages_with_cache`:
with `force_refresh` a single whole-request `telegram` segment and no
cache consultation, otherwise the `build_timeline` output for the cached
coverage of the channel. -/
def segmentsOf (db : DB) (channelId : Int) (startDate endDate : Int)
    (forceRefresh : Bool) : List TimelineSegment :=
  if forceRefresh then [⟨startDate, endDate, Source.telegram⟩]
  else
    timelineFor ⟨startDate, endDate⟩
      ((getCachedDateRange db channelId).map (fun p => ⟨p.1, p.2⟩))

/-- Walk the timeline: cache segments produce items from the cache reader,
telegram segments run the batched fetcher (threading the session and the
uuid counter) and produce items from its yields; a fetcher error aborts
the walk after the items already yielded. -/
def segLoop (channel : List RemoteMsg) (channelId : Int)
    (channelName : Option String) (telegramBatchSize : Nat)
    (scrapeMedia : Bool) (maxBytes : Option Int)
    (net : Nat → MediaDownloadResult) (diskSize : String → Option Int)
    (uuids : Nat → String) (fail : Nat → FailurePoint) :
    Store → List TimelineSegment → Nat → List Item × Store × Nat × Bool
  | st, [], ctr => ([], st, ctr, false)
  | st, seg :: rest, ctr =>
      match seg.source with
      | Source.cache =>
          let items := (cacheRows st.pending channelId seg.start seg.stop).map
            (cacheItem st.pending channelId)
          let r := segLoop channel channelId channelName telegramBatchSize
            scrapeMedia maxBytes net diskSize uuids fail st rest ctr
          (items ++ r.1, r.2)
      | Source.telegram =>
          let fr :=
            downloadFromTelegramBatched channel st channelId channelName
              seg.start seg.stop telegramBatchSize scrapeMedia maxBytes net
              diskSize uuids fail ctr
          let items := (fr.1.map (fun y => y.batch.map telegramItem)).flatten
          if fr.2.2.2 then (items, fr.2.1, fr.2.2.1, true)
          else
            let r := segLoop channel channelId channelName telegramBatchSize
              scrapeMedia maxBytes net diskSize uuids fail fr.2.1 rest
              fr.2.2.1
            (items ++ r.1, r.2)

/-- `stream_messages_with_cache`: compute the timeline, walk it, re-chunk
the produced items to the caller's `client_batch_size`.  On a clean finish
the remainder buffer is flushed as a final undersized chunk; on an aborted
run only the full chunks already emitted are visible to the caller. -/
def streamMessagesWithCache (channel : List RemoteMsg) (st : Store)
    (channelId : Int) (channelName : Option String)
    (startDate endDate : Int) (telegramBatchSize clientBatchSize : Nat)
    (forceRefresh scrapeMedia : Bool) (maxBytes : Option Int)
    (net : Nat → MediaDownloadResult) (diskSize : String → Option Int)
    (uuids : Nat → String) (fail : Nat → FailurePoint) :
    List (List Item) × Store × Bool :=
  let segments := segmentsOf st.pending channelId startDate endDate
    forceRefresh
  let r := segLoop channel channelId channelName telegramBatchSize
    scrapeMedia maxBytes net diskSize uuids fail st segments 0
  let items := r.1
  let streamErr := r.2.2.2
  (if streamErr then fullChunks clientBatchSize items
   else chunkList clientBatchSize items, r.2.1, streamErr)

/-! ## Chunking lemmas -/

lemma chunksGo_join (c : Nat) :
    ∀ (fuel : Nat) (l : List α), (chunksGo c fuel l).flatten = l := by
  intro fuel
  induction fuel with
  | zero =>
      intro l
      match l with
      | [] => rfl
      | x :: xs => simp [chunksGo]
  | succ n ih =>
      intro l
      match l with
      | [] => rfl
      | x :: xs =>
          simp only [chunksGo, List.flatten_cons]
          rw [ih]
          exact List.take_append_drop c (x :: xs)

lemma chunkList_join (c : Nat) (l : List α) : (chunkList c l).flatten = l :=
  chunksGo_join c l.length l

lemma mem_fullChunksGo_join (c : Nat) :
    ∀ (fuel : Nat) (l : List α) (x : α),
      x ∈ (fullChunksGo c fuel l).flatten → x ∈ l := by
  intro fuel
  induction fuel with
  | zero =>
      intro l x hx
      match l with
      | [] => simpa [fullChunksGo] using hx
      | y :: ys => simpa [fullChunksGo] using hx
  | succ n ih =>
      intro l x hx
      match l with
      | [] => simpa [fullChunksGo] using hx
      | y :: ys =>
          simp only [fullChunksGo] at hx
          split_ifs at hx with h
          · simp only [List.flatten_cons, List.mem_append] at hx
            rcases hx with hx | hx
            · exact List.mem_of_mem_take hx
            · exact List.mem_of_mem_drop (ih _ x hx)
          · simp at hx

lemma mem_fullChunks_join (c : Nat) (l : List α) (x : α)
    (hx : x ∈ (fullChunks c l).flatten) : x ∈ l :=
  mem_fullChunksGo_join c l.length l x hx

lemma fullChunksGo_join_prefix (c : Nat) :
    ∀ (fuel : Nat) (l : List α), (fullChunksGo c fuel l).flatten <+: l := by
  intro fuel
  induction fuel with
  | zero =>
      intro l
      match l with
      | [] => simp [fullChunksGo]
      | y :: ys => simp [fullChunksGo]
  | succ n ih =>
      intro l
      match l with
      | [] => simp [fullChunksGo]
      | y :: ys =>
          simp only [fullChunksGo]
          split_ifs with h
          · simp only [List.flatten]
            obtain ⟨w, hw⟩ := ih ((y :: ys).drop c)
            refine ⟨w, ?_⟩
            rw [List.append_assoc, hw, List.take_append_drop]
          · simp

lemma chunksGo_congr (c : Nat) (hc : 0 < c) :
    ∀ (fuel₁ : Nat) (fuel₂ : Nat) (l : List α), l.length ≤ fuel₁ →
      l.length ≤ fuel₂ → chunksGo c fuel₁ l = chunksGo c fuel₂ l := by
  intro fuel₁
  induction fuel₁ with
  | zero =>
      intro fuel₂ l h1 h2
      match l with
      | [] => cases fuel₂ <;> rfl
      | x :: xs => simp at h1
  | succ n ih =>
      intro fuel₂ l h1 h2
      match l with
      | [] => cases fuel₂ <;> rfl
      | x :: xs =>
          match fuel₂ with
          | 0 => simp at h2
          | m + 1 =>
              simp only [chunksGo]
              congr 1
              exact ih m ((x :: xs).drop c)
                (by simp at h1 ⊢; omega) (by simp at h2 ⊢; omega)

lemma chunkList_cons (c : Nat) (hc : 0 < c) (l : List α) (hl : l ≠ []) :
    chunkList c l = l.take c :: chunkList c (l.drop c) := by
  match l with
  | [] => exact absurd rfl hl
  | x :: xs =>
      show chunksGo c (xs.length + 1) (x :: xs) = _
      simp only [chunksGo]
      congr 1
      exact chunksGo_congr c hc xs.length ((x :: xs).drop c).length _
        (by simp; omega) le_rfl

/-- The chunk-size arithmetic: `⌊n/c⌋` full chunks then the `n mod c`
remainder when nonzero. -/
lemma chunkList_lengths (c : Nat) (hc : 0 < c) (l : List α) :
    (chunkList c l).map List.length =
      List.replicate (l.length / c) c ++
        (if l.length % c = 0 then [] else [l.length % c]) := by
  have H : ∀ (n : Nat) (l : List α), l.length = n →
      (chunkList c l).map List.length =
        List.replicate (l.length / c) c ++
          (if l.length % c = 0 then [] else [l.length % c]) := by
    intro n
    induction n using Nat.strong_induction_on with
    | _ n ih =>
        intro l hl
        by_cases hnil : l = []
        · subst hnil; simp [chunkList, chunksGo]
        · rw [chunkList_cons c hc l hnil]
          have hpos : 0 < l.length := List.length_pos.mpr hnil
          by_cases hcl : c ≤ l.length
          · have hdrop : (l.drop c).length = l.length - c := by simp
            have hrec := ih (l.drop c).length (by omega) (l.drop c) rfl
            simp only [List.map_cons, hrec, hdrop]
            rw [List.length_take, min_eq_left hcl]
            rw [Nat.div_eq_sub_div hc hcl, Nat.mod_eq_sub_mod hcl]
            simp [List.replicate_succ]
          · have htake : l.take c = l := List.take_of_length_le (by omega)
            have hdrop : l.drop c = [] := List.drop_eq_nil_of_le (by omega)
            rw [htake, hdrop]
            have hdiv : l.length / c = 0 := Nat.div_eq_of_lt (by omega)
            have hmod : l.length % c = l.length := Nat.mod_eq_of_lt (by omega)
            simp [chunkList, chunksGo, hdiv, hmod, hpos.ne']
  exact H l.length l rfl

/-! ## Dictionary lemmas -/

lemma getKey_popKey_ne (k k' : String) (h : k ≠ k') :
    ∀ d : Item, getKey k (popKey k' d) = getKey k d := by
  intro d
  induction d with
  | nil => rfl
  | cons kv rest ih =>
      obtain ⟨k₁, v⟩ := kv
      by_cases h1 : k₁ = k'
      · subst h1
        have hne : ¬(k₁ = k) := fun hk => h (hk.symm.trans rfl)
        simp [popKey, getKey, hne]
      · by_cases h2 : k₁ = k <;> simp [popKey, getKey, h1, h2, ih, h]

lemma getKey_eq_none_of_not_mem (k : String) :
    ∀ d : Item, k ∉ d.map Prod.fst → getKey k d = none := by
  intro d
  induction d with
  | nil => intro _; rfl
  | cons kv rest ih =>
      intro hk
      obtain ⟨k₁, v⟩ := kv
      simp only [List.map_cons, List.mem_cons] at hk
      push_neg at hk
      have hne : ¬(k₁ = k) := fun hh => hk.1 hh.symm
      simp [getKey, hne, ih hk.2]

lemma popKey_keys_sublist (k : String) :
    ∀ d : Item, List.Sublist ((popKey k d).map Prod.fst)
      (d.map Prod.fst) := by
  intro d
  induction d with
  | nil => simp [popKey]
  | cons kv rest ih =>
      obtain ⟨k₁, v⟩ := kv
      by_cases h1 : k₁ = k
      · simp only [popKey, if_pos h1, List.map_cons]
        exact (List.Sublist.refl _).cons _
      · simp only [popKey, if_neg h1, List.map_cons]
        exact ih.cons₂ _

lemma getKey_popKey_self (k : String) :
    ∀ d : Item, (d.map Prod.fst).Nodup → getKey k (popKey k d) = none := by
  intro d
  induction d with
  | nil => intro _; rfl
  | cons kv rest ih =>
      intro hnd
      obtain ⟨k₁, v⟩ := kv
      simp only [List.map_cons, List.nodup_cons] at hnd
      by_cases h1 : k₁ = k
      · subst h1
        simp only [popKey, if_pos rfl]
        exact getKey_eq_none_of_not_mem _ rest hnd.1
      · have hne : ¬(k₁ = k) := h1
        simp [popKey, getKey, hne, ih hnd.2]

lemma transform_getKey_ne (d : Item) (k : String) (h1 : k ≠ "id")
    (h2 : k ≠ "channel_id") (h3 : k ≠ "media_path") :
    getKey k (transformMessageToResponse d) = getKey k d := by
  unfold transformMessageToResponse
  rw [getKey_popKey_ne k _ h3, getKey_popKey_ne k _ h2,
    getKey_popKey_ne k _ h1]

lemma transform_getKey_removed (d : Item) (hnd : (d.map Prod.fst).Nodup) :
    getKey "id" (transformMessageToResponse d) = none ∧
      getKey "channel_id" (transformMessageToResponse d) = none ∧
      getKey "media_path" (transformMessageToResponse d) = none := by
  have hnd1 : ((popKey "id" d).map Prod.fst).Nodup :=
    hnd.sublist (popKey_keys_sublist "id" d)
  have hnd2 : ((popKey "channel_id" (popKey "id" d)).map Prod.fst).Nodup :=
    hnd1.sublist (popKey_keys_sublist "channel_id" _)
  unfold transformMessageToResponse
  refine ⟨?_, ?_, ?_⟩
  · rw [getKey_popKey_ne "id" "media_path" (by decide),
      getKey_popKey_ne "id" "channel_id" (by decide)]
    exact getKey_popKey_self "id" d hnd
  · rw [getKey_popKey_ne "channel_id" "media_path" (by decide)]
    exact getKey_popKey_self "channel_id" _ hnd1
  · exact getKey_popKey_self "media_path" _ hnd2

lemma keys_setKey (k : String) (v : Val) :
    ∀ d : Item, (setKey k v d).map Prod.fst =
      if k ∈ d.map Prod.fst then d.map Prod.fst else d.map Prod.fst ++ [k] := by
  intro d
  induction d with
  | nil => simp [setKey]
  | cons kv rest ih =>
      obtain ⟨k₁, v₁⟩ := kv
      by_cases h1 : k₁ = k
      · subst h1
        simp [setKey]
      · have hne : ¬(k = k₁) := fun hh => h1 hh.symm
        simp only [setKey, if_neg h1, List.map_cons, ih]
        by_cases h2 : k ∈ rest.map Prod.fst <;>
          simp [h2, hne, List.mem_cons]

lemma nodup_keys_setKey (k : String) (v : Val) (d : Item)
    (hnd : (d.map Prod.fst).Nodup) : ((setKey k v d).map Prod.fst).Nodup := by
  rw [keys_setKey]
  split_ifs with h
  · exact hnd
  · rw [List.nodup_append]
    exact ⟨hnd, List.nodup_singleton k, by
      intro a ha hb
      simp only [List.mem_singleton] at hb
      exact h (hb ▸ ha)⟩

lemma nodup_keys_rowToDict (db : DB) (r : StoredMsg) :
    ((rowToDict db r).map Prod.fst).Nodup := by
  simp only [rowToDict, List.map_cons, List.map_nil]
  decide

lemma nodup_keys_cacheEnrichedDict (db : DB) (channelId : Int)
    (r : StoredMsg) :
    ((cacheEnrichedDict db channelId r).map Prod.fst).Nodup := by
  have h0 := nodup_keys_rowToDict db r
  unfold cacheEnrichedDict
  rcases getMediaUuidByMessageId db channelId r.message_id with _ | u
  · dsimp only
    exact nodup_keys_setKey _ _ _ (nodup_keys_setKey _ _ _
      (nodup_keys_setKey _ _ _ (nodup_keys_setKey _ _ _ h0)))
  · dsimp only
    rcases getMediaInfoByUuid db u with _ | info
    · dsimp only
      exact nodup_keys_setKey _ _ _ (nodup_keys_setKey _ _ _
        (nodup_keys_setKey _ _ _ (nodup_keys_setKey _ _ _ h0)))
    · dsimp only
      exact nodup_keys_setKey _ _ _ (nodup_keys_setKey _ _ _
        (nodup_keys_setKey _ _ _ (nodup_keys_setKey _ _ _ h0)))

lemma nodup_keys_telegramDict (msg : MessageData) :
    ((telegramDict msg).map Prod.fst).Nodup := by
  simp only [telegramDict, List.map_cons, List.map_nil]
  decide

/-! ## Named views of one sync run -/

/-- The full ordered item sequence one sync produces (before the caller's
re-chunking). -/
def syncItems (channel : List RemoteMsg) (st : Store) (channelId : Int)
    (channelName : Option String) (startDate endDate : Int)
    (telegramBatchSize : Nat) (forceRefresh scrapeMedia : Bool)
    (maxBytes : Option Int) (net : Nat → MediaDownloadResult)
    (diskSize : String → Option Int) (uuids : Nat → String)
    (fail : Nat → FailurePoint) : List Item :=
  (segLoop channel channelId channelName telegramBatchSize scrapeMedia
    maxBytes net diskSize uuids fail st
    (segmentsOf st.pending channelId startDate endDate forceRefresh) 0).1

/-- Whether the sync aborted on a storage failure. -/
def syncErr (channel : List RemoteMsg) (st : Store) (channelId : Int)
    (channelName : Option String) (startDate endDate : Int)
    (telegramBatchSize : Nat) (forceRefresh scrapeMedia : Bool)
    (maxBytes : Option Int) (net : Nat → MediaDownloadResult)
    (diskSize : String → Option Int) (uuids : Nat → String)
    (fail : Nat → FailurePoint) : Bool :=
  (segLoop channel channelId channelName telegramBatchSize scrapeMedia
    maxBytes net diskSize uuids fail st
    (segmentsOf st.pending channelId startDate endDate forceRefresh) 0).2.2.2

lemma streamMessagesWithCache_fst (channel : List RemoteMsg) (st : Store)
    (channelId : Int) (channelName : Option String)
    (startDate endDate : Int) (telegramBatchSize clientBatchSize : Nat)
    (forceRefresh scrapeMedia : Bool) (maxBytes : Option Int)
    (net : Nat → MediaDownloadResult) (diskSize : String → Option Int)
    (uuids : Nat → String) (fail : Nat → FailurePoint) :
    (streamMessagesWithCache channel st channelId channelName startDate
        endDate telegramBatchSize clientBatchSize forceRefresh scrapeMedia
        maxBytes net diskSize uuids fail).1 =
      if syncErr channel st channelId channelName startDate endDate
          telegramBatchSize forceRefresh scrapeMedia maxBytes net diskSize
          uuids fail then
        fullChunks clientBatchSize (syncItems channel st channelId
          channelName startDate endDate telegramBatchSize forceRefresh
          scrapeMedia maxBytes net diskSize uuids fail)
      else
        chunkList clientBatchSize (syncItems channel st channelId
          channelName startDate endDate telegramBatchSize forceRefresh
          scrapeMedia maxBytes net diskSize uuids fail) := rfl

lemma streamMessagesWithCache_err (channel : List RemoteMsg) (st : Store)
    (channelId : Int) (channelName : Option String)
    (startDate endDate : Int) (telegramBatchSize clientBatchSize : Nat)
    (forceRefresh scrapeMedia : Bool) (maxBytes : Option Int)
    (net : Nat → MediaDownloadResult) (diskSize : String → Option Int)
    (uuids : Nat → String) (fail : Nat → FailurePoint) :
    (streamMessagesWithCache channel st channelId channelName startDate
        endDate telegramBatchSize clientBatchSize forceRefresh scrapeMedia
        maxBytes net diskSize uuids fail).2.2 =
      syncErr channel st channelId channelName startDate endDate
        telegramBatchSize forceRefresh scrapeMedia maxBytes net diskSize
        uuids fail := rfl

/-- Every item of a sync run is a transformed cache or telegram item built
on a dict with distinct keys. -/
lemma syncItems_shape (channel : List RemoteMsg) (channelId : Int)
    (channelName : Option String) (telegramBatchSize : Nat)
    (scrapeMedia : Bool) (maxBytes : Option Int)
    (net : Nat → MediaDownloadResult) (diskSize : String → Option Int)
    (uuids : Nat → String) (fail : Nat → FailurePoint) :
    ∀ (segs : List TimelineSegment) (st : Store) (ctr : Nat),
      ∀ item ∈ (segLoop channel channelId channelName telegramBatchSize
          scrapeMedia maxBytes net diskSize uuids fail st segs ctr).1,
        ∃ d : Item, (d.map Prod.fst).Nodup ∧
          item = transformMessageToResponse d := by
  intro segs
  induction segs with
  | nil => intro st ctr item h; simp [segLoop] at h
  | cons seg rest ih =>
      intro st ctr item h
      obtain ⟨ss, se, src⟩ := seg
      cases src with
      | cache =>
          simp only [segLoop, List.mem_append] at h
          rcases h with h | h
          · simp only [List.mem_map] at h
            obtain ⟨r, _, hr⟩ := h
            exact ⟨cacheEnrichedDict st.pending channelId r,
              nodup_keys_cacheEnrichedDict _ _ _, hr.symm⟩
          · exact ih st _ item h
      | telegram =>
          simp only [segLoop] at h
          split_ifs at h with herr
          · simp only [List.mem_flatten, List.mem_map] at h
            obtain ⟨_, ⟨y, _, rfl⟩, hin⟩ := h
            simp only [List.mem_map] at hin
            obtain ⟨md, _, hmd⟩ := hin
            exact ⟨telegramDict md, nodup_keys_telegramDict md, hmd.symm⟩
          · simp only [List.mem_append] at h
            rcases h with h | h
            · simp only [List.mem_flatten, List.mem_map] at h
              obtain ⟨_, ⟨y, _, rfl⟩, hin⟩ := h
              simp only [List.mem_map] at hin
              obtain ⟨md, _, hmd⟩ := hin
              exact ⟨telegramDict md, nodup_keys_telegramDict md, hmd.symm⟩
            · exact ih _ _ item h

/-- **C10.** `transform_message_to_response` removes exactly the keys
`id`, `channel_id` and `media_path` (every other key keeps its value), and
every item yielded to the caller by `stream_messages_with_cache` — from
cache segments and telegram segments alike — is the image of a dict under
that transformation, so no yielded item carries a `media_path` (the
on-disk location), an `id` or a `channel_id` entry. -/
theorem stream_output_hides_internal_fields (channel : List RemoteMsg)
    (st : Store) (channelId : Int) (channelName : Option String)
    (startDate endDate : Int) (telegramBatchSize clientBatchSize : Nat)
    (forceRefresh scrapeMedia : Bool) (maxBytes : Option Int)
    (net : Nat → MediaDownloadResult) (diskSize : String → Option Int)
    (uuids : Nat → String) (fail : Nat → FailurePoint) :
    (∀ (d : Item) (k : String), k ≠ "id" → k ≠ "channel_id" →
        k ≠ "media_path" →
        getKey k (transformMessageToResponse d) = getKey k d) ∧
    (∀ d : Item, (d.map Prod.fst).Nodup →
        getKey "id" (transformMessageToResponse d) = none ∧
        getKey "channel_id" (transformMessageToResponse d) = none ∧
        getKey "media_path" (transformMessageToResponse d) = none) ∧
    (∀ item ∈ ((streamMessagesWithCache channel st channelId channelName
        startDate endDate telegramBatchSize clientBatchSize forceRefresh
        scrapeMedia maxBytes net diskSize uuids fail).1).flatten,
      (∃ d : Item, item = transformMessageToResponse d) ∧
        getKey "media_path" item = none ∧ getKey "id" item = none ∧
        getKey "channel_id" item = none) := by
  refine ⟨fun d k h1 h2 h3 => transform_getKey_ne d k h1 h2 h3,
    fun d hnd => transform_getKey_removed d hnd, fun item hitem => ?_⟩
  rw [streamMessagesWithCache_fst] at hitem
  have hmem : item ∈ syncItems channel st channelId channelName startDate
      endDate telegramBatchSize forceRefresh scrapeMedia maxBytes net
      diskSize uuids fail := by
    split_ifs at hitem with herr
    · exact mem_fullChunks_join _ _ _ hitem
    · rw [chunkList_join] at hitem; exact hitem
  obtain ⟨d, hnd, rfl⟩ := syncItems_shape channel channelId channelName
    telegramBatchSize scrapeMedia maxBytes net diskSize uuids fail _ st 0
    item hmem
  obtain ⟨ha, hb, hc⟩ := transform_getKey_removed d hnd
  exact ⟨⟨d, rfl⟩, hc, ha, hb⟩

/-! ## Caller chunking (C6) -/

/-- A remote channel with 7 plain records (dates 1..7), for the concrete
chunking scenario. -/
def demoChannel : List RemoteMsg :=
  (List.range 7).map (fun k =>
    { id := k + 1
      date := (k : Int) + 1
      edit_date := none
      sender_id := 100
      first_name := none
      last_name := none
      username := none
      text := "m"
      reply_to := none
      post_author := none
      is_forwarded := false
      forwarded_from_channel_id := none
      media := none })

def noNet : Nat → MediaDownloadResult := fun _ => ⟨DLStatus.skipped, none, none⟩

def noDisk : String → Option Int := fun _ => none

def demoUuids : Nat → String := fun _ => "u"

def noFailure : Nat → FailurePoint := fun _ => FailurePoint.noFail

/-- **C6.** With caller chunk size `c > 0` and a sync that finishes without
a storage error: the yielded chunks have sizes `c, c, …, c, n mod c` (the
final chunk only when `n mod c > 0`), their concatenation is exactly the
full item sequence in order, and `n = 0` yields nothing; concretely, with
an empty cache, chunk size 3 and 7 remote records the chunk sizes are
`3, 3, 1`. -/
theorem stream_chunking (channel : List RemoteMsg) (st : Store)
    (channelId : Int) (channelName : Option String)
    (startDate endDate : Int) (telegramBatchSize clientBatchSize : Nat)
    (forceRefresh scrapeMedia : Bool) (maxBytes : Option Int)
    (net : Nat → MediaDownloadResult) (diskSize : String → Option Int)
    (uuids : Nat → String) (fail : Nat → FailurePoint)
    (hc : 0 < clientBatchSize)
    (hok : syncErr channel st channelId channelName startDate endDate
      telegramBatchSize forceRefresh scrapeMedia maxBytes net diskSize
      uuids fail = false) :
    (((streamMessagesWithCache channel st channelId channelName startDate
          endDate telegramBatchSize clientBatchSize forceRefresh
          scrapeMedia maxBytes net diskSize uuids fail).1).flatten =
        syncItems channel st channelId channelName startDate endDate
          telegramBatchSize forceRefresh scrapeMedia maxBytes net diskSize
          uuids fail) ∧
    ((streamMessagesWithCache channel st channelId channelName startDate
          endDate telegramBatchSize clientBatchSize forceRefresh
          scrapeMedia maxBytes net diskSize uuids fail).1.map
            List.length =
        List.replicate ((syncItems channel st channelId channelName
            startDate endDate telegramBatchSize forceRefresh scrapeMedia
            maxBytes net diskSize uuids fail).length / clientBatchSize)
          clientBatchSize ++
          (if (syncItems channel st channelId channelName startDate endDate
              telegramBatchSize forceRefresh scrapeMedia maxBytes net
              diskSize uuids fail).length % clientBatchSize = 0 then []
           else [(syncItems channel st channelId channelName startDate
              endDate telegramBatchSize forceRefresh scrapeMedia maxBytes
              net diskSize uuids fail).length % clientBatchSize])) ∧
    ((syncItems channel st channelId channelName startDate endDate
        telegramBatchSize forceRefresh scrapeMedia maxBytes net diskSize
        uuids fail).length = 0 →
      (streamMessagesWithCache channel st channelId channelName startDate
        endDate telegramBatchSize clientBatchSize forceRefresh scrapeMedia
        maxBytes net diskSize uuids fail).1 = []) ∧
    ((streamMessagesWithCache demoChannel (Store.ofDb DB.empty) 42 none 0
        10 100 3 false false none noNet noDisk demoUuids noFailure).1.map
          List.length = [3, 3, 1]) := by
  rw [streamMessagesWithCache_fst, hok, if_neg (by simp)]
  refine ⟨chunkList_join _ _, chunkList_lengths _ hc _, fun hzero => ?_, ?_⟩
  · have : syncItems channel st channelId channelName startDate endDate
        telegramBatchSize forceRefresh scrapeMedia maxBytes net diskSize
        uuids fail = [] := List.length_eq_zero.mp hzero
    rw [this]
    rfl
  · rfl

/-- Witness for `stream_chunking` at the concrete 7-record scenario. -/
theorem stream_chunking_witness :
    0 < 3 ∧
      syncErr demoChannel (Store.ofDb DB.empty) 42 none 0 10 100 false
        false none noNet noDisk demoUuids noFailure = false ∧
      (((streamMessagesWithCache demoChannel (Store.ofDb DB.empty) 42 none
          0 10 100 3 false false none noNet noDisk demoUuids
          noFailure).1).flatten =
        syncItems demoChannel (Store.ofDb DB.empty) 42 none 0 10 100 false
          false none noNet noDisk demoUuids noFailure) := by
  refine ⟨by norm_num, by rfl, ?_⟩
  exact (stream_chunking demoChannel (Store.ofDb DB.empty) 42 none 0 10 100
    3 false false none noNet noDisk demoUuids noFailure (by norm_num)
    (by rfl)).1

/-! ## Forced refresh (C8) -/

lemma upsertUser_messages (db : DB) (userId : Int)
    (firstName lastName username : Option String) :
    (upsertUser db userId firstName lastName username).messages =
      db.messages := by
  unfold upsertUser; split_ifs <;> rfl

/-- **C8.** With `force_refresh` the timeline is exactly one `telegram`
segment spanning the request; the computation never consults the database
(its result is the same for every database, so neither the cached-coverage
query nor gap computation nor the Timeline Builder contributes); and a
refetched record with the same `(channel_id, message_id)` key as a cached
row replaces that row's fields in place via the upsert, adding no new
row. -/
theorem force_refresh_single_remote_segment (db : DB) (channelId : Int)
    (startDate endDate : Int) (db₂ : DB) (m' : MessageData)
    (hexist : db₂.messages.any (fun r =>
      r.channel_id == channelId && r.message_id == m'.message_id) = true) :
    segmentsOf db channelId startDate endDate true =
        [⟨startDate, endDate, Source.telegram⟩] ∧
      (∀ db' : DB, segmentsOf db' channelId startDate endDate true =
        segmentsOf db channelId startDate endDate true) ∧
      (batchUpsertMessages db₂ [m'] channelId true).messages.length =
        db₂.messages.length ∧
      (∀ r ∈ (batchUpsertMessages db₂ [m'] channelId true).messages,
        (r.channel_id == channelId && r.message_id == m'.message_id) =
            true →
          r.date = m'.date ∧ r.edit_date = m'.edit_date ∧
            r.sender_id = m'.sender_id ∧ r.message = m'.message ∧
            r.reply_to = m'.reply_to ∧ r.post_author = m'.post_author ∧
            r.is_forwarded = m'.is_forwarded ∧
            r.forwarded_from_channel_id = m'.forwarded_from_channel_id) := by
  have hfold : batchUpsertMessages db₂ [m'] channelId true =
      upsertMessage channelId true db₂ m' := rfl
  have hany : (upsertUser db₂ m'.sender_id m'.first_name m'.last_name
      m'.username).messages.any (fun r =>
        r.channel_id == channelId && r.message_id == m'.message_id) =
      true := by
    rw [upsertUser_messages]; exact hexist
  have hup : (upsertMessage channelId true db₂ m').messages =
      (upsertUser db₂ m'.sender_id m'.first_name m'.last_name
        m'.username).messages.map (fun r =>
          if r.channel_id == channelId && r.message_id == m'.message_id
          then
            { r with
                date := m'.date
                edit_date := m'.edit_date
                sender_id := m'.sender_id
                message := m'.message
                reply_to := m'.reply_to
                post_author := m'.post_author
                is_forwarded := m'.is_forwarded
                forwarded_from_channel_id := m'.forwarded_from_channel_id }
          else r) := by
    unfold upsertMessage
    rw [if_pos hany, if_pos rfl]
  refine ⟨by simp [segmentsOf], fun db' => by simp [segmentsOf], ?_, ?_⟩
  · rw [hfold, hup, List.length_map, upsertUser_messages]
  · intro r hr hkey
    rw [hfold, hup] at hr
    obtain ⟨r₀, hr₀, rfl⟩ := List.mem_map.mp hr
    by_cases hk : (r₀.channel_id == channelId &&
        r₀.message_id == m'.message_id) = true
    · rw [if_pos hk]
      exact ⟨rfl, rfl, rfl, rfl, rfl, rfl, rfl, rfl⟩
    · rw [if_neg hk] at hkey ⊢
      exact absurd hkey hk

/-- Witness for `force_refresh_single_remote_segment`: a database holding
one cached row for `(42, 7)` and a refetched record with the same key. -/
theorem force_refresh_single_remote_segment_witness :
    (DB.mk [⟨1, 42, 7, 5, none, 100, "old", none, none, none, 0, none⟩]
        [] [] 2).messages.any (fun r =>
      r.channel_id == (42 : Int) &&
        r.message_id ==
          (MessageData.mk 7 42 6 none 100 none none none "new" none none 0
            none none none none none none none).message_id) = true ∧
    segmentsOf DB.empty 42 0 10 true = [⟨0, 10, Source.telegram⟩] := by
  refine ⟨by decide, ?_⟩
  exact (force_refresh_single_remote_segment DB.empty 42 0 10
    (DB.mk [⟨1, 42, 7, 5, none, 100, "old", none, none, none, 0, none⟩]
      [] [] 2)
    (MessageData.mk 7 42 6 none 100 none none none "new" none none 0 none
      none none none none none none)
    (by decide)).1

/-! ## Media metadata on skipped downloads (C2) and batch atomicity (C3)

Concrete executions of `download_from_telegram_batched` exhibiting the
actual persistence behaviour. -/

/-- One remote message carrying a 10 MB photo. -/
def c2Channel : List RemoteMsg :=
  [{ id := 1
     date := 5
     edit_date := none
     sender_id := 100
     first_name := none
     last_name := none
     username := none
     text := "m"
     reply_to := none
     post_author := none
     is_forwarded := false
     forwarded_from_channel_id := none
     media := some ⟨false, some 10000000, "MessageMediaPhoto", none⟩ }]

/-- Fetch `c2Channel` with `scrape_media` on and a 5 MB size limit: the
download is skipped by the size policy. -/
def c2Run : List YieldEvent × Store × Nat × Bool :=
  downloadFromTelegramBatched c2Channel (Store.ofDb DB.empty) 42 none 0 10
    100 true (some 5000000)
    (fun _ => ⟨DLStatus.downloaded, some "42/media/1-photo.jpg", none⟩)
    (fun _ => some 10000000) demoUuids noFailure 0

/-- **C2 (failing execution).** The record fetched in `c2Run` carries an
attachment (`media_type = MessageMediaPhoto`) whose bytes were skipped by
the size policy (`media_path = none`); the record itself is committed, yet
NO `MediaFile` row is created — `scraper.py` only calls
`store_media_with_uuid` when `msg.media_path` is set, so a skipped
attachment leaves no payload metadata to backfill later. -/
theorem oversize_media_leaves_no_payload_record :
    (c2Run.1.map (fun y => y.batch)).flatten.map
        (fun m => m.media_type) = [some "MessageMediaPhoto"] ∧
      (c2Run.1.map (fun y => y.batch)).flatten.map
        (fun m => m.media_path) = [none] ∧
      c2Run.2.1.committed.messages.length = 1 ∧
      c2Run.2.1.committed.mediaFiles = [] :=
  ⟨rfl, rfl, rfl, rfl⟩

/-- Two remote messages, both with small downloadable documents. -/
def c3Channel : List RemoteMsg :=
  [{ id := 1
     date := 5
     edit_date := none
     sender_id := 100
     first_name := none
     last_name := none
     username := none
     text := "m1"
     reply_to := none
     post_author := none
     is_forwarded := false
     forwarded_from_channel_id := none
     media := some ⟨false, some 5, "MessageMediaDocument", some "a.bin"⟩ },
   { id := 2
     date := 6
     edit_date := none
     sender_id := 100
     first_name := none
     last_name := none
     username := none
     text := "m2"
     reply_to := none
     post_author := none
     is_forwarded := false
     forwarded_from_channel_id := none
     media := some ⟨false, some 5, "MessageMediaDocument", some "b.bin"⟩ }]

/-- Fetch `c3Channel` as one batch of 2, with the second
`store_media_with_uuid` call failing mid-batch. -/
def c3Run : List YieldEvent × Store × Nat × Bool :=
  downloadFromTelegramBatched c3Channel (Store.ofDb DB.empty) 42 none 0 10
    2 true none
    (fun i => ⟨DLStatus.downloaded,
      some (if i == 1 then "42/media/1-a.bin" else "42/media/2-b.bin"),
      none⟩)
    (fun _ => some 5)
    (fun n => if n == 0 then "uuid-a" else "uuid-b")
    (fun _ => FailurePoint.atStore 1) 0

/-- **C3 (failing execution).** A storage failure at the second
`store_media_with_uuid` call of one two-message batch: the error is
propagated and nothing is yielded, but because `store_media_with_uuid`
itself commits the session, the rollback comes too late — afterward both
of the batch's Records and exactly one of its two PayloadRecords are
observable in committed storage.  The batch was not written in one
transaction and was not rolled back entirely. -/
theorem mid_batch_failure_leaves_partial_state :
    c3Run.2.2.2 = true ∧ c3Run.1 = [] ∧
      c3Run.2.1.committed.messages.length = 2 ∧
      c3Run.2.1.committed.mediaFiles.length = 1 :=
  ⟨rfl, rfl, rfl, rfl⟩

/-! ## Write-then-yield (C4) -/

/-- A row with the given `(channel_id, message_id)` key is present. -/
def hasMsgKey (db : DB) (channelId : Int) (messageId : Nat) : Prop :=
  ∃ r ∈ db.messages, r.channel_id = channelId ∧ r.message_id = messageId

lemma hasMsgKey_upsertMessage_self (db : DB) (channelId : Int)
    (replaceExisting : Bool) (m : MessageData) :
    hasMsgKey (upsertMessage channelId replaceExisting db m) channelId
      m.message_id := by
  unfold upsertMessage
  dsimp only
  rw [upsertUser_messages]
  split_ifs with hany hrep
  · obtain ⟨r, hr, hkey⟩ := List.any_eq_true.mp hany
    simp only [Bool.and_eq_true, beq_iff_eq] at hkey
    refine ⟨_, List.mem_map_of_mem _ hr, ?_⟩
    rw [if_pos (by simp [hkey.1, hkey.2])]
    exact ⟨hkey.1, hkey.2⟩
  · obtain ⟨r, hr, hkey⟩ := List.any_eq_true.mp hany
    simp only [Bool.and_eq_true, beq_iff_eq] at hkey
    refine ⟨r, ?_, hkey.1, hkey.2⟩
    rw [upsertUser_messages]
    exact hr
  · exact ⟨_, List.mem_append_right _ (List.mem_singleton_self _),
      rfl, rfl⟩

lemma hasMsgKey_upsertMessage_mono (db : DB) (channelId : Int)
    (replaceExisting : Bool) (m : MessageData) (k₁ : Int) (k₂ : Nat)
    (h : hasMsgKey db k₁ k₂) :
    hasMsgKey (upsertMessage channelId replaceExisting db m) k₁ k₂ := by
  obtain ⟨r, hr, hkey⟩ := h
  unfold upsertMessage
  dsimp only
  rw [upsertUser_messages]
  split_ifs with hany hrep
  · refine ⟨_, List.mem_map_of_mem _ hr, ?_⟩
    split_ifs with hk
    · exact hkey
    · exact hkey
  · refine ⟨r, ?_, hkey⟩
    rw [upsertUser_messages]
    exact hr
  · exact ⟨r, List.mem_append_left _ hr, hkey⟩

lemma hasMsgKey_batchUpsert_mono (channelId : Int)
    (replaceExisting : Bool) (msgs : List MessageData) :
    ∀ (db : DB) (k₁ : Int) (k₂ : Nat), hasMsgKey db k₁ k₂ →
      hasMsgKey (batchUpsertMessages db msgs channelId replaceExisting)
        k₁ k₂ := by
  induction msgs with
  | nil => intro db k₁ k₂ h; exact h
  | cons m rest ih =>
      intro db k₁ k₂ h
      exact ih _ k₁ k₂ (hasMsgKey_upsertMessage_mono db channelId
        replaceExisting m k₁ k₂ h)

lemma hasMsgKey_batchUpsert_self (channelId : Int) (msgs : List MessageData) :
    ∀ (db : DB) (m : MessageData), m ∈ msgs →
      hasMsgKey (batchUpsertMessages db msgs channelId true) channelId
        m.message_id := by
  induction msgs with
  | nil => intro db m h; simp at h
  | cons m₀ rest ih =>
      intro db m h
      rcases List.mem_cons.mp h with rfl | h
      · exact hasMsgKey_batchUpsert_mono channelId true rest _ _ _
          (hasMsgKey_upsertMessage_self db channelId true m)
      · exact ih _ m h

lemma hasMsgKey_storeMediaWithUuid (db : DB) (channelId : Int)
    (messageId : Nat) (fileSize : Option Int) (mediaType : Option String)
    (originalFilename : Option String) (filePath : Option String)
    (freshUuid : String) (k₁ : Int) (k₂ : Nat) (h : hasMsgKey db k₁ k₂) :
    hasMsgKey (storeMediaWithUuid db channelId messageId fileSize mediaType
      originalFilename filePath freshUuid).1 k₁ k₂ := by
  obtain ⟨r, hr, hkey⟩ := h
  have hnew : hasMsgKey (storeMediaWithUuid.storeMediaNew db channelId
      messageId fileSize mediaType originalFilename filePath freshUuid).1
      k₁ k₂ := by
    unfold storeMediaWithUuid.storeMediaNew
    refine ⟨_, List.mem_map_of_mem _ hr, ?_⟩
    split_ifs with hk
    · exact hkey
    · exact hkey
  unfold storeMediaWithUuid
  dsimp only
  split
  · split_ifs with hf
    · exact ⟨r, hr, hkey⟩
    · exact hnew
  · exact hnew

lemma storeMediaLoop_ok (channelId : Int) (uuids : Nat → String)
    (fail : FailurePoint) :
    ∀ (batch : List MessageData) (st : Store) (i ctr : Nat) (st' : Store)
      (batch' : List MessageData) (ctr' : Nat),
      storeMediaLoop channelId uuids fail st batch i ctr =
        Except.ok (st', batch', ctr') →
      (∀ k₁ k₂, hasMsgKey st.pending k₁ k₂ → hasMsgKey st'.pending k₁ k₂) ∧
        batch'.map (fun m => m.message_id) =
          batch.map (fun m => m.message_id) := by
  intro batch
  induction batch with
  | nil =>
      intro st i ctr st' batch' ctr' h
      simp only [storeMediaLoop] at h
      cases h
      exact ⟨fun _ _ hk => hk, rfl⟩
  | cons m rest ih =>
      intro st i ctr st' batch' ctr' h
      simp only [storeMediaLoop] at h
      split_ifs at h with hmedia hfail hfresh <;>
        first
          | exact Except.noConfusion h
          | (simp only [Except.map] at h
             split at h
             · exact Except.noConfusion h
             · rename_i v heq
               cases h
               obtain ⟨hmono, hids⟩ := ih _ _ _ _ _ _ heq
               first
                 | exact ⟨fun k₁ k₂ hk => hmono _ _
                     (hasMsgKey_storeMediaWithUuid _ _ _ _ _ _ _ _ k₁ k₂
                       hk), by simp [hids]⟩
                 | exact ⟨hmono, by simp [hids]⟩)

lemma saveBatch_ok_keys (st : Store) (batch : List MessageData)
    (channelId : Int) (uuids : Nat → String) (fp : FailurePoint)
    (ctr : Nat) (st' : Store) (batch' : List MessageData) (ctr' : Nat)
    (h : saveBatch st batch channelId uuids fp ctr =
      Except.ok (st', batch', ctr')) :
    ∀ m ∈ batch', ∃ r ∈ st'.committed.messages,
      r.channel_id = channelId ∧ r.message_id = m.message_id := by
  intro m hm
  unfold saveBatch at h
  dsimp only at h
  split at h
  · exact Except.noConfusion h
  · rename_i st₂ batch₂ ctr₂ heq
    split_ifs at h with hfc <;>
      first
        | exact Except.noConfusion h
        | (cases h
           obtain ⟨hmono, hids⟩ := storeMediaLoop_ok channelId uuids fp
             batch _ 0 ctr _ _ _ heq
           have hmid : m.message_id ∈ batch.map (fun m => m.message_id) := by
             rw [← hids]
             exact List.mem_map_of_mem _ hm
           obtain ⟨m₀, hm₀, hid₀⟩ := List.mem_map.mp hmid
           have hkey : hasMsgKey st₂.pending channelId m₀.message_id :=
             hmono _ _ (hasMsgKey_batchUpsert_self channelId batch _ m₀ hm₀)
           obtain ⟨r, hr, hk1, hk2⟩ := hkey
           exact ⟨r, hr, hk1, by rw [hk2, hid₀]⟩)

/-- **C4.** In `download_from_telegram_batched` a batch is yielded only
after its commit succeeded: at every yield event, every record of the
yielded batch has a matching row in the committed database visible at the
moment of the yield (write-then-yield). -/
theorem batch_yielded_only_after_commit (channel : List RemoteMsg)
    (st : Store) (channelId : Int) (channelName : Option String)
    (startDate endDate : Int) (batchSize : Nat) (scrapeMedia : Bool)
    (maxBytes : Option Int) (net : Nat → MediaDownloadResult)
    (diskSize : String → Option Int) (uuids : Nat → String)
    (fail : Nat → FailurePoint) (ctr : Nat) :
    ∀ y ∈ (downloadFromTelegramBatched channel st channelId channelName
        startDate endDate batchSize scrapeMedia maxBytes net diskSize
        uuids fail ctr).1,
      ∀ m ∈ y.batch, ∃ r ∈ y.committedAtYield.messages,
        r.channel_id = channelId ∧ r.message_id = m.message_id := by
  unfold downloadFromTelegramBatched
  generalize (telegramIter channel startDate).takeWhile
    (fun m => m.date ≤ endDate) = input
  have main : ∀ (input : List RemoteMsg) (st : Store)
      (batchAcc : List MessageData) (saveIdx ctr : Nat),
      ∀ y ∈ (fetchLoop channelId channelName batchSize scrapeMedia
          maxBytes net diskSize uuids fail st input batchAcc saveIdx
          ctr).1,
        ∀ m ∈ y.batch, ∃ r ∈ y.committedAtYield.messages,
          r.channel_id = channelId ∧ r.message_id = m.message_id := by
    intro input
    induction input with
    | nil =>
        intro st batchAcc saveIdx ctr y hy m hm
        rcases batchAcc with _ | ⟨b, bs⟩
        · simp [fetchLoop] at hy
        · simp only [fetchLoop] at hy
          rcases hsave : saveBatch st (b :: bs) channelId uuids
              (fail saveIdx) ctr with st₂ | ⟨st₂, batch₂, ctr₂⟩
          · rw [hsave] at hy
            simp at hy
          · rw [hsave] at hy
            simp only [List.mem_singleton] at hy
            subst hy
            exact saveBatch_ok_keys st (b :: bs) channelId uuids
              (fail saveIdx) ctr st₂ batch₂ ctr₂ hsave m hm
    | cons rm rest ih =>
        intro st batchAcc saveIdx ctr y hy m hm
        simp only [fetchLoop] at hy
        split_ifs at hy with hlen
        · rcases hsave : saveBatch st (batchAcc ++ [processMessage channelId
              channelName scrapeMedia maxBytes net diskSize rm]) channelId
              uuids (fail saveIdx) ctr with st₂ | ⟨st₂, batch₂, ctr₂⟩
          · rw [hsave] at hy
            simp at hy
          · rw [hsave] at hy
            simp only [List.mem_cons] at hy
            rcases hy with rfl | hy
            · exact saveBatch_ok_keys st _ channelId uuids (fail saveIdx)
                ctr st₂ batch₂ ctr₂ hsave m hm
            · exact ih st₂ [] (saveIdx + 1) ctr₂ y hy m hm
        · exact ih st _ saveIdx ctr y hy m hm
  exact main input st [] 0 ctr

/-- A concrete batched fetch: the 7-record demo channel, batches of 3. -/
def c4Run : List YieldEvent × Store × Nat × Bool :=
  downloadFromTelegramBatched demoChannel (Store.ofDb DB.empty) 42 none 0
    10 3 false none noNet noDisk demoUuids noFailure 0

/-- The first yield event of `c4Run`. -/
def c4Y : YieldEvent := (c4Run.1).headD ⟨[], DB.empty⟩

/-- The first record of `c4Y`'s batch. -/
def c4M : MessageData :=
  (c4Y.batch).headD (processMessage 42 none false none noNet noDisk
    { id := 0
      date := 0
      edit_date := none
      sender_id := 0
      first_name := none
      last_name := none
      username := none
      text := ""
      reply_to := none
      post_author := none
      is_forwarded := false
      forwarded_from_channel_id := none
      media := none })

/-- Witness for `batch_yielded_only_after_commit` at the first record of
the first yielded batch of a concrete run. -/
theorem batch_yielded_only_after_commit_witness :
    c4Y ∈ (downloadFromTelegramBatched demoChannel (Store.ofDb DB.empty)
        42 none 0 10 3 false none noNet noDisk demoUuids noFailure 0).1 ∧
      c4M ∈ c4Y.batch ∧
      ∃ r ∈ c4Y.committedAtYield.messages,
        r.channel_id = 42 ∧ r.message_id = c4M.message_id :=
  ⟨by decide, by decide,
    batch_yielded_only_after_commit demoChannel (Store.ofDb DB.empty) 42
      none 0 10 3 false none noNet noDisk demoUuids noFailure 0 c4Y
      (by decide) c4M (by decide)⟩

/-! ## Monotone output (C5) -/

/-- The timestamp of a caller-visible item (its `"date"` entry). -/
def itemDate (it : Item) : Int :=
  match getKey "date" it with
  | some (Val.i d) => d
  | _ => 0

lemma getKey_setKey_ne (k k' : String) (h : k ≠ k') (v : Val) :
    ∀ d : Item, getKey k (setKey k' v d) = getKey k d := by
  have hsymm : ¬(k' = k) := fun hh => h hh.symm
  intro d
  induction d with
  | nil => simp [setKey, getKey, hsymm]
  | cons kv rest ih =>
      obtain ⟨k₁, v₁⟩ := kv
      by_cases h1 : k₁ = k'
      · subst h1
        have hne : ¬(k₁ = k) := fun hk => h hk.symm
        simp [setKey, getKey, hne]
      · by_cases h2 : k₁ = k <;> simp [setKey, getKey, h1, h2, ih, h]

lemma itemDate_telegramItem (msg : MessageData) :
    itemDate (telegramItem msg) = msg.date := by
  unfold itemDate telegramItem
  rw [transform_getKey_ne _ _ (by decide) (by decide) (by decide)]
  simp [telegramDict, getKey]

lemma itemDate_cacheItem (db : DB) (channelId : Int) (r : StoredMsg) :
    itemDate (cacheItem db channelId r) = r.date := by
  unfold itemDate cacheItem
  rw [transform_getKey_ne _ _ (by decide) (by decide) (by decide)]
  have hrow : getKey "date" (rowToDict db r) = some (Val.i r.date) := by
    simp [rowToDict, getKey]
  unfold cacheEnrichedDict
  rcases getMediaUuidByMessageId db channelId r.message_id with _ | u
  · rw [getKey_setKey_ne _ _ (by decide), getKey_setKey_ne _ _ (by decide),
      getKey_setKey_ne _ _ (by decide), getKey_setKey_ne _ _ (by decide),
      hrow]
  · dsimp only
    rcases getMediaInfoByUuid db u with _ | info
    · rw [getKey_setKey_ne _ _ (by decide), getKey_setKey_ne _ _ (by decide),
        getKey_setKey_ne _ _ (by decide), getKey_setKey_ne _ _ (by decide),
        hrow]
    · rw [getKey_setKey_ne _ _ (by decide), getKey_setKey_ne _ _ (by decide),
        getKey_setKey_ne _ _ (by decide), getKey_setKey_ne _ _ (by decide),
        hrow]

instance : IsTotal StoredMsg dateLE := ⟨fun a b => le_total a.date b.date⟩

instance : IsTrans StoredMsg dateLE :=
  ⟨fun a b c hab hbc => le_trans hab hbc⟩

lemma getCachedDateRange_le (db : DB) (channelId : Int) (lo hi : Int)
    (h : getCachedDateRange db channelId = some (lo, hi)) : lo ≤ hi := by
  unfold getCachedDateRange at h
  rcases hds : (db.messages.filter (fun r =>
      r.channel_id == channelId)).map (fun r => r.date) with _ | ⟨d, ds⟩
  · rw [hds] at h; cases h
  · rw [hds] at h
    cases h
    have hmin : ∀ (ds : List Int) (d : Int), ds.foldl min d ≤ d := by
      intro ds
      induction ds with
      | nil => intro d; exact le_rfl
      | cons x xs ih =>
          intro d
          exact le_trans (ih (min d x)) (min_le_left d x)
    have hmax : ∀ (ds : List Int) (d : Int), d ≤ ds.foldl max d := by
      intro ds
      induction ds with
      | nil => intro d; exact le_rfl
      | cons x xs ih =>
          intro d
          exact le_trans (le_max_left d x) (ih (max d x))
    exact le_trans (hmin ds d) (hmax ds d)

lemma processMessage_date (channelId : Int) (channelName : Option String)
    (scrapeMedia : Bool) (maxBytes : Option Int)
    (net : Nat → MediaDownloadResult) (diskSize : String → Option Int)
    (m : RemoteMsg) :
    (processMessage channelId channelName scrapeMedia maxBytes net diskSize
      m).date = m.date := rfl

lemma storeMediaLoop_ok_dates (channelId : Int) (uuids : Nat → String)
    (fail : FailurePoint) :
    ∀ (batch : List MessageData) (st : Store) (i ctr : Nat) (st' : Store)
      (batch' : List MessageData) (ctr' : Nat),
      storeMediaLoop channelId uuids fail st batch i ctr =
        Except.ok (st', batch', ctr') →
      batch'.map (fun m => m.date) = batch.map (fun m => m.date) := by
  intro batch
  induction batch with
  | nil =>
      intro st i ctr st' batch' ctr' h
      simp only [storeMediaLoop] at h
      cases h
      rfl
  | cons m rest ih =>
      intro st i ctr st' batch' ctr' h
      simp only [storeMediaLoop] at h
      split_ifs at h with hmedia hfail hfresh <;>
        first
          | exact Except.noConfusion h
          | (simp only [Except.map] at h
             split at h
             · exact Except.noConfusion h
             · rename_i v heq
               cases h
               have hids := ih _ _ _ _ _ _ heq
               simp [hids])

lemma saveBatch_ok_dates (st : Store) (batch : List MessageData)
    (channelId : Int) (uuids : Nat → String) (fp : FailurePoint)
    (ctr : Nat) (st' : Store) (batch' : List MessageData) (ctr' : Nat)
    (h : saveBatch st batch channelId uuids fp ctr =
      Except.ok (st', batch', ctr')) :
    batch'.map (fun m => m.date) = batch.map (fun m => m.date) := by
  unfold saveBatch at h
  dsimp only at h
  split at h
  · exact Except.noConfusion h
  · rename_i st₂ batch₂ ctr₂ heq
    split_ifs at h with hfc <;>
      first
        | exact Except.noConfusion h
        | (cases h
           exact storeMediaLoop_ok_dates channelId uuids fp batch _ 0 ctr
             _ _ _ heq)

/-- The dates of the records a fetch run yields: nothing, or the carried
batch followed by a prefix of the input's dates (the fetcher never
reorders, drops from the middle of, or duplicates its input). -/
lemma fetchLoop_dates (channelId : Int) (channelName : Option String)
    (batchSize : Nat) (scrapeMedia : Bool) (maxBytes : Option Int)
    (net : Nat → MediaDownloadResult) (diskSize : String → Option Int)
    (uuids : Nat → String) (fail : Nat → FailurePoint) :
    ∀ (input : List RemoteMsg) (st : Store) (batchAcc : List MessageData)
      (saveIdx ctr : Nat),
      ((fetchLoop channelId channelName batchSize scrapeMedia maxBytes net
          diskSize uuids fail st input batchAcc saveIdx ctr).1.map
            (fun y => y.batch.map (fun m => m.date))).flatten = [] ∨
      ∃ P, P <+: input.map (fun m => m.date) ∧
        ((fetchLoop channelId channelName batchSize scrapeMedia maxBytes
            net diskSize uuids fail st input batchAcc saveIdx ctr).1.map
              (fun y => y.batch.map (fun m => m.date))).flatten =
          batchAcc.map (fun m => m.date) ++ P := by
  intro input
  induction input with
  | nil =>
      intro st batchAcc saveIdx ctr
      rcases batchAcc with _ | ⟨b, bs⟩
      · left; simp [fetchLoop]
      · simp only [fetchLoop]
        rcases hsave : saveBatch st (b :: bs) channelId uuids
            (fail saveIdx) ctr with st₂ | ⟨st₂, batch₂, ctr₂⟩
        · left; simp
        · right
          refine ⟨[], List.nil_prefix, ?_⟩
          have hd := saveBatch_ok_dates st (b :: bs) channelId uuids
            (fail saveIdx) ctr st₂ batch₂ ctr₂ hsave
          simp [hd]
  | cons rm rest ih =>
      intro st batchAcc saveIdx ctr
      simp only [fetchLoop]
      split_ifs with hlen
      · rcases hsave : saveBatch st (batchAcc ++ [processMessage channelId
            channelName scrapeMedia maxBytes net diskSize rm]) channelId
            uuids (fail saveIdx) ctr with st₂ | ⟨st₂, batch₂, ctr₂⟩
        · left; simp
        · right
          have hd := saveBatch_ok_dates st _ channelId uuids (fail saveIdx)
            ctr st₂ batch₂ ctr₂ hsave
          rcases ih st₂ [] (saveIdx + 1) ctr₂ with hrec | ⟨P, hP, hrec⟩
          · refine ⟨[rm.date], ⟨rest.map (fun m => m.date), by simp⟩, ?_⟩
            simp [hd, hrec, processMessage_date]
          · refine ⟨rm.date :: P, ?_, ?_⟩
            · obtain ⟨w, hw⟩ := hP
              exact ⟨w, by simp [hw]⟩
            · simp only [List.map_cons, List.map_nil, List.flatten_cons,
                hd, hrec]
              simp [processMessage_date]
      · rcases ih st (batchAcc ++ [processMessage channelId channelName
            scrapeMedia maxBytes net diskSize rm]) saveIdx ctr with
          hrec | ⟨P, hP, hrec⟩
        · left; exact hrec
        · right
          refine ⟨rm.date :: P, ?_, ?_⟩
          · obtain ⟨w, hw⟩ := hP
            exact ⟨w, by simp [hw]⟩
          · rw [hrec]
            simp [processMessage_date]

lemma batch_map_itemDate (b : List MessageData) :
    (b.map telegramItem).map itemDate = b.map (fun m => m.date) := by
  rw [List.map_map]
  exact List.map_congr_left (fun m _ => itemDate_telegramItem m)

lemma yields_map_itemDate (L : List YieldEvent) :
    ((L.map (fun y => y.batch.map telegramItem)).flatten).map itemDate =
      (L.map (fun y => y.batch.map (fun m => m.date))).flatten := by
  induction L with
  | nil => rfl
  | cons y ys ih =>
      simp only [List.map_cons, List.flatten_cons, List.map_append, ih,
        batch_map_itemDate]

/-- Membership from `getLast?`/`head?`. -/
lemma mem_of_getLastQ {l : List α} {x : α} (h : x ∈ l.getLast?) : x ∈ l := by
  obtain ⟨hh, hx⟩ := List.mem_getLast?_eq_getLast h
  rw [hx]
  exact List.getLast_mem hh

lemma mem_of_headQ {l : List α} {x : α} (h : x ∈ l.head?) : x ∈ l := by
  rw [List.eq_cons_of_mem_head? h]
  exact List.mem_cons_self _ _

lemma cacheRows_pairwise (db : DB) (channelId : Int) (s e : Int) :
    List.Pairwise dateLE (cacheRows db channelId s e) :=
  List.sorted_insertionSort dateLE _

lemma mem_cacheRows (db : DB) (channelId : Int) (s e : Int)
    (r : StoredMsg) (h : r ∈ cacheRows db channelId s e) :
    s ≤ r.date ∧ r.date ≤ e := by
  have hmem : r ∈ db.messages.filter (fun r =>
      r.channel_id == channelId && decide (s ≤ r.date) &&
        decide (r.date ≤ e)) :=
    (List.perm_insertionSort dateLE _).subset h
  simp only [List.mem_filter, Bool.and_eq_true, decide_eq_true_eq] at hmem
  exact ⟨hmem.2.1.2, hmem.2.2⟩

lemma telInput_pairwise (channel : List RemoteMsg) (s e : Int)
    (hchan : List.Pairwise (fun a b => a.date ≤ b.date) channel) :
    List.Pairwise (fun a b : RemoteMsg => a.date ≤ b.date)
      ((telegramIter channel s).takeWhile (fun m => m.date ≤ e)) :=
  hchan.sublist
    ((List.takeWhile_sublist _).trans (List.filter_sublist _))

lemma mem_telInput (channel : List RemoteMsg) (s e : Int) (m : RemoteMsg)
    (h : m ∈ (telegramIter channel s).takeWhile (fun m => m.date ≤ e)) :
    s < m.date ∧ m.date ≤ e := by
  have h1 : m.date ≤ e := by
    have := List.mem_takeWhile_imp h
    simpa using this
  have h2 : m ∈ telegramIter channel s :=
    (List.takeWhile_sublist _).subset h
  unfold telegramIter at h2
  simp only [List.mem_filter, decide_eq_true_eq] at h2
  exact ⟨h2.2, h1⟩

/-- `fetchLoop_dates` phrased for a whole `download_from_telegram_batched`
run (empty carried batch). -/
lemma fetch_run_dates (channel : List RemoteMsg) (st : Store)
    (channelId : Int) (channelName : Option String) (s e : Int)
    (batchSize : Nat) (scrapeMedia : Bool) (maxBytes : Option Int)
    (net : Nat → MediaDownloadResult) (diskSize : String → Option Int)
    (uuids : Nat → String) (fail : Nat → FailurePoint) (ctr : Nat) :
    ((downloadFromTelegramBatched channel st channelId channelName s e
        batchSize scrapeMedia maxBytes net diskSize uuids fail ctr).1.map
          (fun y => y.batch.map (fun m => m.date))).flatten = [] ∨
      ∃ P, P <+: ((telegramIter channel s).takeWhile
          (fun m => m.date ≤ e)).map (fun m => m.date) ∧
        ((downloadFromTelegramBatched channel st channelId channelName s e
            batchSize scrapeMedia maxBytes net diskSize uuids fail
            ctr).1.map
              (fun y => y.batch.map (fun m => m.date))).flatten = P := by
  have h := fetchLoop_dates channelId channelName batchSize scrapeMedia
    maxBytes net diskSize uuids fail
    ((telegramIter channel s).takeWhile (fun m => m.date ≤ e)) st [] 0 ctr
  unfold downloadFromTelegramBatched
  rcases h with h | ⟨P, hP, h⟩
  · left; exact h
  · right; exact ⟨P, hP, by simpa using h⟩

/-- Dates of the items a timeline walk produces: non-decreasing within the
walk, and each bounded by its segment. -/
lemma segLoop_dates (channel : List RemoteMsg) (channelId : Int)
    (channelName : Option String) (telegramBatchSize : Nat)
    (scrapeMedia : Bool) (maxBytes : Option Int)
    (net : Nat → MediaDownloadResult) (diskSize : String → Option Int)
    (uuids : Nat → String) (fail : Nat → FailurePoint)
    (hchan : List.Pairwise (fun a b => a.date ≤ b.date) channel) :
    ∀ (segs : List TimelineSegment) (st : Store) (ctr : Nat),
      segs.Pairwise (fun a b => a.stop ≤ b.start) →
      List.Chain' (· ≤ ·)
          ((segLoop channel channelId channelName telegramBatchSize
            scrapeMedia maxBytes net diskSize uuids fail st segs
            ctr).1.map itemDate) ∧
        (∀ d ∈ (segLoop channel channelId channelName telegramBatchSize
            scrapeMedia maxBytes net diskSize uuids fail st segs
            ctr).1.map itemDate,
          ∃ sg ∈ segs, sg.start ≤ d ∧ d ≤ sg.stop) := by
  intro segs
  induction segs with
  | nil =>
      intro st ctr hpair
      constructor
      · simp [segLoop]
      · intro d hd; simp [segLoop] at hd
  | cons seg rest ih =>
      intro st ctr hpair
      obtain ⟨ss, se, src⟩ := seg
      have hhead : ∀ b ∈ rest, se ≤ b.start := by
        intro b hb
        exact (List.pairwise_cons.mp hpair).1 b hb
      have htail := (List.pairwise_cons.mp hpair).2
      cases src with
      | cache =>
          have hitems : ((cacheRows st.pending channelId ss se).map
              (cacheItem st.pending channelId)).map itemDate =
              (cacheRows st.pending channelId ss se).map
                (fun r => r.date) := by
            rw [List.map_map]
            exact List.map_congr_left
              (fun r _ => itemDate_cacheItem st.pending channelId r)
          have hpw : List.Pairwise (fun a b : Int => a ≤ b)
              ((cacheRows st.pending channelId ss se).map
                (fun r => r.date)) :=
            List.pairwise_map.mpr
              (cacheRows_pairwise st.pending channelId ss se)
          have hchain1 := hpw.chain'
          have hbound1 : ∀ d ∈ (cacheRows st.pending channelId ss se).map
              (fun r => r.date), ss ≤ d ∧ d ≤ se := by
            intro d hd
            obtain ⟨r, hr, rfl⟩ := List.mem_map.mp hd
            exact mem_cacheRows st.pending channelId ss se r hr
          obtain ⟨hrec, hrecmem⟩ := ih st ctr htail
          constructor
          · simp only [segLoop, List.map_append, hitems]
            rw [List.chain'_append]
            refine ⟨hchain1, hrec, ?_⟩
            intro x hx y hy
            have hxmem : x ∈ (cacheRows st.pending channelId ss se).map
                (fun r => r.date) := mem_of_getLastQ hx
            have hymem := mem_of_headQ hy
            obtain ⟨sg, hsg, hsgy, _⟩ := hrecmem y hymem
            exact le_trans (hbound1 x hxmem).2
              (le_trans (hhead sg hsg) hsgy)
          · intro d hd
            simp only [segLoop, List.map_append, hitems,
              List.mem_append] at hd
            rcases hd with hd | hd
            · exact ⟨⟨ss, se, Source.cache⟩, List.mem_cons_self _ _,
                (hbound1 d hd).1, (hbound1 d hd).2⟩
            · obtain ⟨sg, hsg, h1, h2⟩ := hrecmem d hd
              exact ⟨sg, List.mem_cons_of_mem _ hsg, h1, h2⟩
      | telegram =>
          have hdates := fetch_run_dates channel st channelId channelName
            ss se telegramBatchSize scrapeMedia maxBytes net diskSize
            uuids fail ctr
          set fr := downloadFromTelegramBatched channel st channelId
            channelName ss se telegramBatchSize scrapeMedia maxBytes net
            diskSize uuids fail ctr with hfr
          have hflat : ((fr.1.map (fun y =>
              y.batch.map telegramItem)).flatten).map itemDate =
              (fr.1.map (fun y =>
                y.batch.map (fun m => m.date))).flatten :=
            yields_map_itemDate fr.1
          have hinput : List.Pairwise (fun a b : Int => a ≤ b)
              (((telegramIter channel ss).takeWhile
                (fun m => m.date ≤ se)).map (fun m => m.date)) :=
            List.pairwise_map.mpr (telInput_pairwise channel ss se hchan)
          have hP : ∀ (P : List Int),
              P <+: ((telegramIter channel ss).takeWhile
                (fun m => m.date ≤ se)).map (fun m => m.date) →
              List.Chain' (fun a b : Int => a ≤ b) P ∧
                ∀ d ∈ P, ss ≤ d ∧ d ≤ se := by
            intro P hpre
            refine ⟨(hinput.sublist hpre.sublist).chain', fun d hd => ?_⟩
            have : d ∈ ((telegramIter channel ss).takeWhile
                (fun m => m.date ≤ se)).map (fun m => m.date) :=
              hpre.subset hd
            obtain ⟨m, hm, rfl⟩ := List.mem_map.mp this
            obtain ⟨h1, h2⟩ := mem_telInput channel ss se m hm
            exact ⟨le_of_lt h1, h2⟩
          have hitems : List.Chain' (fun a b : Int => a ≤ b)
              (((fr.1.map (fun y =>
                y.batch.map telegramItem)).flatten).map itemDate) ∧
              ∀ d ∈ ((fr.1.map (fun y =>
                y.batch.map telegramItem)).flatten).map itemDate,
                ss ≤ d ∧ d ≤ se := by
            rw [hflat]
            rcases hdates with hnil | ⟨P, hpre, heq⟩
            · rw [hnil]
              exact ⟨List.chain'_nil, fun d hd => absurd hd
                (List.not_mem_nil d)⟩
            · rw [heq]
              simpa using hP P hpre
          obtain ⟨hrec, hrecmem⟩ := ih fr.2.1 fr.2.2.1 htail
          rcases herr : fr.2.2.2 with _ | _
          · -- no fetch error: items followed by the rest of the walk
            constructor
            · simp only [segLoop, ← hfr, herr, Bool.false_eq_true,
                if_false, List.map_append]
              rw [List.chain'_append]
              refine ⟨hitems.1, hrec, ?_⟩
              intro x hx y hy
              have hxmem := mem_of_getLastQ hx
              have hymem := mem_of_headQ hy
              obtain ⟨sg, hsg, hsgy, _⟩ := hrecmem y hymem
              exact le_trans (hitems.2 x hxmem).2
                (le_trans (hhead sg hsg) hsgy)
            · intro d hd
              simp only [segLoop, ← hfr, herr, Bool.false_eq_true,
                if_false, List.map_append, List.mem_append] at hd
              rcases hd with hd | hd
              · exact ⟨⟨ss, se, Source.telegram⟩, List.mem_cons_self _ _,
                  (hitems.2 d hd).1, (hitems.2 d hd).2⟩
              · obtain ⟨sg, hsg, h1, h2⟩ := hrecmem d hd
                exact ⟨sg, List.mem_cons_of_mem _ hsg, h1, h2⟩
          · -- fetch error: the walk stops with this segment's items
            constructor
            · simp only [segLoop, ← hfr, herr, if_true]
              exact hitems.1
            · intro d hd
              simp only [segLoop, ← hfr, herr, if_true] at hd
              exact ⟨⟨ss, se, Source.telegram⟩, List.mem_cons_self _ _,
                (hitems.2 d hd).1, (hitems.2 d hd).2⟩

/-- **C5.** The flattened stream of items yielded by
`stream_messages_with_cache` is non-decreasing by timestamp across the
whole sync — within each timeline segment and across every
cache-segment/telegram-segment boundary — for every request with
`start < end` and a remote source that lists messages in non-decreasing
timestamp order (the Telethon `reverse=True` iteration order). -/
theorem stream_output_monotone (channel : List RemoteMsg) (st : Store)
    (channelId : Int) (channelName : Option String)
    (startDate endDate : Int) (telegramBatchSize clientBatchSize : Nat)
    (forceRefresh scrapeMedia : Bool) (maxBytes : Option Int)
    (net : Nat → MediaDownloadResult) (diskSize : String → Option Int)
    (uuids : Nat → String) (fail : Nat → FailurePoint)
    (hchan : List.Pairwise (fun a b => a.date ≤ b.date) channel)
    (hreq : startDate < endDate) :
    List.Chain' (fun a b => itemDate a ≤ itemDate b)
      (((streamMessagesWithCache channel st channelId channelName
        startDate endDate telegramBatchSize clientBatchSize forceRefresh
        scrapeMedia maxBytes net diskSize uuids fail).1).flatten) := by
  have hsegs : (segmentsOf st.pending channelId startDate endDate
      forceRefresh).Pairwise (fun a b => a.stop ≤ b.start) := by
    unfold segmentsOf
    split_ifs with hforce
    · simp
    · rcases hc : getCachedDateRange st.pending channelId with _ | ⟨lo, hi⟩
      · exact (timelineFor_partition ⟨startDate, endDate⟩ none hreq
          (by simp)).2.1
      · refine (timelineFor_partition ⟨startDate, endDate⟩
          (some ⟨lo, hi⟩) hreq ?_).2.1
        intro c hcmem
        simp only [Option.mem_def, Option.some.injEq] at hcmem
        subst hcmem
        exact getCachedDateRange_le st.pending channelId lo hi hc
  have hmain := segLoop_dates channel channelId channelName
    telegramBatchSize scrapeMedia maxBytes net diskSize uuids fail hchan
    (segmentsOf st.pending channelId startDate endDate forceRefresh) st 0
    hsegs
  have hitems : List.Chain' (fun a b => itemDate a ≤ itemDate b)
      (syncItems channel st channelId channelName startDate endDate
        telegramBatchSize forceRefresh scrapeMedia maxBytes net diskSize
        uuids fail) :=
    (List.chain'_map itemDate).mp hmain.1
  rw [streamMessagesWithCache_fst]
  split_ifs with herr
  · obtain ⟨t, ht⟩ := fullChunksGo_join_prefix clientBatchSize
      (syncItems channel st channelId channelName startDate endDate
        telegramBatchSize forceRefresh scrapeMedia maxBytes net diskSize
        uuids fail).length
      (syncItems channel st channelId channelName startDate endDate
        telegramBatchSize forceRefresh scrapeMedia maxBytes net diskSize
        uuids fail)
    rw [← ht] at hitems
    exact (List.chain'_append.mp hitems).1
  · rw [chunkList_join]
    exact hitems

/-- Witness for `stream_output_monotone` on the 7-record demo channel. -/
theorem stream_output_monotone_witness :
    List.Pairwise (fun a b => a.date ≤ b.date) demoChannel ∧
      (0 : Int) < 10 ∧
      List.Chain' (fun a b => itemDate a ≤ itemDate b)
        (((streamMessagesWithCache demoChannel (Store.ofDb DB.empty) 42
          none 0 10 100 3 false false none noNet noDisk demoUuids
          noFailure).1).flatten) := by
  refine ⟨by decide, by norm_num, ?_⟩
  exact stream_output_monotone demoChannel (Store.ofDb DB.empty) 42 none 0
    10 100 3 false false none noNet noDisk demoUuids noFailure (by decide)
    (by norm_num)

/-! ## Resync idempotence (C7)

A record's caller-visible identity: its message id, timestamp and body
(the fields that survive the round trip remote → storage → cache read). -/

def tripleOfRemote (m : RemoteMsg) : Nat × Int × String :=
  (m.id, m.date, m.text)

def tripleOfMsg (md : MessageData) : Nat × Int × String :=
  (md.message_id, md.date, md.message)

def tripleOfRow (r : StoredMsg) : Nat × Int × String :=
  (r.message_id, r.date, r.message)

def keyOfTriple (t : Nat × Int × String) :
    Option Val × Option Val × Option Val :=
  (some (Val.i t.1), some (Val.i t.2.1), some (Val.s t.2.2))

/-- The identity of a caller-visible item. -/
def itemKey (it : Item) : Option Val × Option Val × Option Val :=
  (getKey "message_id" it, getKey "date" it, getKey "message" it)

/-- A record with the given identity is stored for the channel. -/
def rowPresent (db : DB) (channelId : Int) (t : Nat × Int × String) :
    Prop :=
  ∃ r ∈ db.messages, r.channel_id = channelId ∧ tripleOfRow r = t

/-- The session state after one sync run. -/
def syncStore (channel : List RemoteMsg) (st : Store) (channelId : Int)
    (channelName : Option String) (startDate endDate : Int)
    (telegramBatchSize : Nat) (forceRefresh scrapeMedia : Bool)
    (maxBytes : Option Int) (net : Nat → MediaDownloadResult)
    (diskSize : String → Option Int) (uuids : Nat → String)
    (fail : Nat → FailurePoint) : Store :=
  (segLoop channel channelId channelName telegramBatchSize scrapeMedia
    maxBytes net diskSize uuids fail st
    (segmentsOf st.pending channelId startDate endDate forceRefresh) 0).2.1

lemma itemKey_telegramItem (msg : MessageData) :
    itemKey (telegramItem msg) = keyOfTriple (tripleOfMsg msg) := by
  unfold itemKey telegramItem keyOfTriple tripleOfMsg
  rw [transform_getKey_ne _ _ (by decide) (by decide) (by decide),
    transform_getKey_ne _ _ (by decide) (by decide) (by decide),
    transform_getKey_ne _ _ (by decide) (by decide) (by decide)]
  simp [telegramDict, getKey]

lemma itemKey_cacheItem (db : DB) (channelId : Int) (r : StoredMsg) :
    itemKey (cacheItem db channelId r) = keyOfTriple (tripleOfRow r) := by
  unfold itemKey cacheItem keyOfTriple tripleOfRow
  rw [transform_getKey_ne _ _ (by decide) (by decide) (by decide),
    transform_getKey_ne _ _ (by decide) (by decide) (by decide),
    transform_getKey_ne _ _ (by decide) (by decide) (by decide)]
  have hrow : getKey "message_id" (rowToDict db r) =
        some (Val.i r.message_id) ∧
      getKey "date" (rowToDict db r) = some (Val.i r.date) ∧
      getKey "message" (rowToDict db r) = some (Val.s r.message) := by
    refine ⟨?_, ?_, ?_⟩ <;> simp [rowToDict, getKey]
  unfold cacheEnrichedDict
  rcases getMediaUuidByMessageId db channelId r.message_id with _ | u
  · rw [getKey_setKey_ne _ _ (by decide), getKey_setKey_ne _ _ (by decide),
      getKey_setKey_ne _ _ (by decide), getKey_setKey_ne _ _ (by decide),
      getKey_setKey_ne _ _ (by decide), getKey_setKey_ne _ _ (by decide),
      getKey_setKey_ne _ _ (by decide), getKey_setKey_ne _ _ (by decide),
      getKey_setKey_ne _ _ (by decide), getKey_setKey_ne _ _ (by decide),
      getKey_setKey_ne _ _ (by decide), getKey_setKey_ne _ _ (by decide),
      hrow.1, hrow.2.1, hrow.2.2]
  · dsimp only
    rcases getMediaInfoByUuid db u with _ | info <;>
      rw [getKey_setKey_ne _ _ (by decide), getKey_setKey_ne _ _ (by decide),
        getKey_setKey_ne _ _ (by decide), getKey_setKey_ne _ _ (by decide),
        getKey_setKey_ne _ _ (by decide), getKey_setKey_ne _ _ (by decide),
        getKey_setKey_ne _ _ (by decide), getKey_setKey_ne _ _ (by decide),
        getKey_setKey_ne _ _ (by decide), getKey_setKey_ne _ _ (by decide),
        getKey_setKey_ne _ _ (by decide), getKey_setKey_ne _ _ (by decide),
        hrow.1, hrow.2.1, hrow.2.2]

lemma tripleOfMsg_processMessage (channelId : Int)
    (channelName : Option String) (scrapeMedia : Bool)
    (maxBytes : Option Int) (net : Nat → MediaDownloadResult)
    (diskSize : String → Option Int) (m : RemoteMsg) :
    tripleOfMsg (processMessage channelId channelName scrapeMedia maxBytes
      net diskSize m) = tripleOfRemote m := rfl

/-- On a list sorted by date, `takeWhile (date ≤ e)` is `filter`. -/
lemma takeWhile_eq_filter_of_sorted (e : Int) :
    ∀ l : List RemoteMsg, List.Pairwise (fun a b => a.date ≤ b.date) l →
      l.takeWhile (fun m => m.date ≤ e) =
        l.filter (fun m => m.date ≤ e) := by
  intro l
  induction l with
  | nil => intro _; rfl
  | cons m rest ih =>
      intro hp
      obtain ⟨hhead, htail⟩ := List.pairwise_cons.mp hp
      by_cases hm : m.date ≤ e
      · simp [List.takeWhile_cons, List.filter_cons, hm, ih htail]
      · have hrest : ∀ x ∈ rest, ¬(x.date ≤ e) := by
          intro x hx hxe
          exact hm (le_trans (hhead x hx) hxe)
        have hnil : rest.filter (fun m => decide (m.date ≤ e)) = [] :=
          List.filter_eq_nil_iff.mpr (by intro x hx; simpa using hrest x hx)
        simp [List.takeWhile_cons, List.filter_cons, hm, hnil]

lemma processMessage_no_media (channelId : Int)
    (channelName : Option String) (maxBytes : Option Int)
    (net : Nat → MediaDownloadResult) (diskSize : String → Option Int)
    (m : RemoteMsg) :
    (processMessage channelId channelName false maxBytes net diskSize
      m).media_path = none := by
  unfold processMessage
  cases m.media <;> simp

lemma storeMediaLoop_clean (channelId : Int) (uuids : Nat → String)
    (fp : FailurePoint) :
    ∀ (batch : List MessageData) (st : Store) (i ctr : Nat),
      (∀ m ∈ batch, m.media_path = none) →
      storeMediaLoop channelId uuids fp st batch i ctr =
        Except.ok (st, batch, ctr) := by
  intro batch
  induction batch with
  | nil => intro st i ctr _; rfl
  | cons m rest ih =>
      intro st i ctr hm
      have hmp : m.media_path = none := hm m (List.mem_cons_self _ _)
      unfold storeMediaLoop
      rw [hmp]
      simp only [Option.isSome_none, Bool.false_eq_true, if_false]
      rw [ih st i ctr (fun x hx => hm x (List.mem_cons_of_mem _ hx))]
      rfl

lemma saveBatch_clean (st : Store) (batch : List MessageData)
    (channelId : Int) (uuids : Nat → String) (fp : FailurePoint)
    (ctr : Nat) (hb : ∀ m ∈ batch, m.media_path = none)
    (hfp : fp ≠ FailurePoint.atFinalCommit) :
    saveBatch st batch channelId uuids fp ctr =
      Except.ok
        (Store.ofDb (batchUpsertMessages st.pending batch channelId true),
          batch, ctr) := by
  unfold saveBatch
  dsimp only
  rw [storeMediaLoop_clean channelId uuids fp batch _ 0 ctr hb]
  dsimp only
  rw [if_neg hfp]
  rfl

lemma batchUpsert_append (db : DB) (b1 b2 : List MessageData)
    (channelId : Int) (re : Bool) :
    batchUpsertMessages (batchUpsertMessages db b1 channelId re) b2
        channelId re =
      batchUpsertMessages db (b1 ++ b2) channelId re := by
  unfold batchUpsertMessages
  rw [List.foldl_append]

/-- A media-free, failure-free fetcher run: it never errors, its yields
concatenate to the processed input appended to the carried batch, and the
final session state is the batch-upsert of all of them. -/
lemma fetch_clean (channelId : Int) (channelName : Option String)
    (batchSize : Nat) (maxBytes : Option Int)
    (net : Nat → MediaDownloadResult) (diskSize : String → Option Int)
    (uuids : Nat → String) :
    ∀ (input : List RemoteMsg) (st : Store) (batchAcc : List MessageData)
      (saveIdx ctr : Nat), (∀ m ∈ batchAcc, m.media_path = none) →
      (fetchLoop channelId channelName batchSize false maxBytes net
          diskSize uuids noFailure st input batchAcc saveIdx
          ctr).2.2.2 = false ∧
      (fetchLoop channelId channelName batchSize false maxBytes net
          diskSize uuids noFailure st input batchAcc saveIdx
          ctr).2.1.pending =
        batchUpsertMessages st.pending
          (batchAcc ++ input.map (processMessage channelId channelName
            false maxBytes net diskSize)) channelId true ∧
      ((fetchLoop channelId channelName batchSize false maxBytes net
          diskSize uuids noFailure st input batchAcc saveIdx ctr).1.map
            (fun y => y.batch)).flatten =
        batchAcc ++ input.map (processMessage channelId channelName false
          maxBytes net diskSize) := by
  intro input
  induction input with
  | nil =>
      intro st batchAcc saveIdx ctr hacc
      rcases batchAcc with _ | ⟨b, bs⟩
      · refine ⟨rfl, ?_, rfl⟩
        simp [fetchLoop, batchUpsertMessages]
      · have hsave := saveBatch_clean st (b :: bs) channelId uuids
          (noFailure saveIdx) ctr hacc (by intro h; cases h)
        simp only [fetchLoop, List.map_nil, List.append_nil] at *
        rw [hsave]
        exact ⟨rfl, rfl, by simp⟩
  | cons m rest ih =>
      intro st batchAcc saveIdx ctr hacc
      have hmd : (processMessage channelId channelName false maxBytes net
          diskSize m).media_path = none :=
        processMessage_no_media channelId channelName maxBytes net
          diskSize m
      have hacc' : ∀ x ∈ batchAcc ++ [processMessage channelId channelName
          false maxBytes net diskSize m], x.media_path = none := by
        intro x hx
        rcases List.mem_append.mp hx with hx | hx
        · exact hacc x hx
        · rcases List.mem_singleton.mp hx with rfl
          exact hmd
      simp only [fetchLoop]
      by_cases hlen : batchSize ≤ (batchAcc ++ [processMessage channelId
          channelName false maxBytes net diskSize m]).length
      · rw [if_pos hlen]
        rw [saveBatch_clean st _ channelId uuids (noFailure saveIdx) ctr
          hacc' (by intro h; cases h)]
        dsimp only
        obtain ⟨herr, hpend, hflat⟩ := ih
          (Store.ofDb (batchUpsertMessages st.pending
            (batchAcc ++ [processMessage channelId channelName false
              maxBytes net diskSize m]) channelId true))
          [] (saveIdx + 1) ctr (by intro x hx; cases hx)
        refine ⟨herr, ?_, ?_⟩
        · rw [hpend]
          show batchUpsertMessages (batchUpsertMessages st.pending _
            channelId true) _ channelId true = _
          rw [batchUpsert_append]
          simp
        · simp only [List.map_cons, List.flatten_cons, hflat]
          simp
      · rw [if_neg hlen]
        obtain ⟨herr, hpend, hflat⟩ := ih st
          (batchAcc ++ [processMessage channelId channelName false
            maxBytes net diskSize m]) saveIdx ctr hacc'
        refine ⟨herr, ?_, ?_⟩
        · rw [hpend]; simp
        · rw [hflat]; simp

lemma upsertMessage_rows_sound (channelId : Int) (db : DB)
    (m : MessageData) :
    ∀ r' ∈ (upsertMessage channelId true db m).messages,
      r' ∈ db.messages ∨
        (r'.channel_id = channelId ∧ tripleOfRow r' = tripleOfMsg m) := by
  intro r' hr'
  unfold upsertMessage at hr'
  simp only [upsertUser_messages] at hr'
  split at hr'
  · obtain ⟨r, hr, hfr⟩ := List.mem_map.mp hr'
    by_cases hmatch : (r.channel_id == channelId &&
        r.message_id == m.message_id) = true
    · rw [if_pos hmatch] at hfr
      simp only [Bool.and_eq_true, beq_iff_eq] at hmatch
      right
      rw [← hfr]
      exact ⟨hmatch.1, by
        simp [tripleOfRow, tripleOfMsg, hmatch.2]⟩
    · rw [if_neg hmatch] at hfr
      left; rw [← hfr]; exact hr
  · rcases List.mem_append.mp hr' with h | h
    · left; exact h
    · rcases List.mem_singleton.mp h with rfl
      right
      exact ⟨rfl, rfl⟩

lemma upsertMessage_present_self (channelId : Int) (db : DB)
    (m : MessageData) :
    rowPresent (upsertMessage channelId true db m) channelId
      (tripleOfMsg m) := by
  unfold rowPresent upsertMessage
  simp only [upsertUser_messages]
  by_cases hany : (db.messages.any (fun r =>
      r.channel_id == channelId && r.message_id == m.message_id)) = true
  · rw [if_pos hany]
    obtain ⟨r₀, hr₀, hm₀⟩ := List.any_eq_true.mp hany
    refine ⟨_, List.mem_map_of_mem _ hr₀, ?_⟩
    rw [if_pos hm₀]
    simp only [Bool.and_eq_true, beq_iff_eq] at hm₀
    exact ⟨hm₀.1, by simp [tripleOfRow, tripleOfMsg, hm₀.2]⟩
  · rw [if_neg hany]
    exact ⟨_, List.mem_append_right _ (List.mem_singleton_self _),
      rfl, rfl⟩

lemma upsertMessage_present_preserve (channelId : Int) (db : DB)
    (m : MessageData) (t : Nat × Int × String)
    (hpres : rowPresent db channelId t)
    (hm : m.message_id = t.1 → tripleOfMsg m = t) :
    rowPresent (upsertMessage channelId true db m) channelId t := by
  obtain ⟨r, hr, hrc, hrt⟩ := hpres
  unfold rowPresent upsertMessage
  simp only [upsertUser_messages]
  by_cases hany : (db.messages.any (fun r =>
      r.channel_id == channelId && r.message_id == m.message_id)) = true
  · rw [if_pos hany]
    refine ⟨_, List.mem_map_of_mem _ hr, ?_⟩
    by_cases hmatch : (r.channel_id == channelId &&
        r.message_id == m.message_id) = true
    · rw [if_pos hmatch]
      simp only [Bool.and_eq_true, beq_iff_eq] at hmatch
      have hid : m.message_id = t.1 := by
        rw [← hrt]; exact hmatch.2.symm
      have hmt := hm hid
      refine ⟨hmatch.1, ?_⟩
      rw [← hmt]
      simp [tripleOfRow, tripleOfMsg, hmatch.2]
    · rw [if_neg hmatch]
      exact ⟨hrc, hrt⟩
  · rw [if_neg hany]
    exact ⟨r, List.mem_append_left _ hr, hrc, hrt⟩

lemma batchUpsert_present_preserve (channelId : Int)
    (t : Nat × Int × String) :
    ∀ (msgs : List MessageData) (db : DB),
      rowPresent db channelId t →
      (∀ m ∈ msgs, m.message_id = t.1 → tripleOfMsg m = t) →
      rowPresent (batchUpsertMessages db msgs channelId true)
        channelId t := by
  intro msgs
  induction msgs with
  | nil => intro db h _; exact h
  | cons m ms ih =>
      intro db h hm
      show rowPresent (batchUpsertMessages
        (upsertMessage channelId true db m) ms channelId true) channelId t
      exact ih _
        (upsertMessage_present_preserve channelId db m t h
          (hm m (List.mem_cons_self _ _)))
        (fun x hx => hm x (List.mem_cons_of_mem _ hx))

lemma batchUpsert_present_self (channelId : Int) (m : MessageData) :
    ∀ (msgs : List MessageData) (db : DB), m ∈ msgs →
      (∀ m' ∈ msgs, m'.message_id = m.message_id →
        tripleOfMsg m' = tripleOfMsg m) →
      rowPresent (batchUpsertMessages db msgs channelId true) channelId
        (tripleOfMsg m) := by
  intro msgs
  induction msgs with
  | nil => intro db h _; cases h
  | cons x ms ih =>
      intro db hmem huniq
      rcases List.mem_cons.mp hmem with rfl | hmem'
      · show rowPresent (batchUpsertMessages
          (upsertMessage channelId true db m) ms channelId true)
          channelId (tripleOfMsg m)
        exact batchUpsert_present_preserve channelId _ ms _
          (upsertMessage_present_self channelId db m)
          (fun m' hm' hid =>
            huniq m' (List.mem_cons_of_mem _ hm') hid)
      · show rowPresent (batchUpsertMessages
          (upsertMessage channelId true db x) ms channelId true)
          channelId (tripleOfMsg m)
        exact ih _ hmem'
          (fun m' hm' hid => huniq m' (List.mem_cons_of_mem _ hm') hid)

lemma batchUpsert_rows_sound (channelId : Int) :
    ∀ (msgs : List MessageData) (db : DB),
      ∀ r' ∈ (batchUpsertMessages db msgs channelId true).messages,
        r' ∈ db.messages ∨ ∃ m ∈ msgs,
          r'.channel_id = channelId ∧ tripleOfRow r' = tripleOfMsg m := by
  intro msgs
  induction msgs with
  | nil => intro db r' hr'; left; exact hr'
  | cons x ms ih =>
      intro db r' hr'
      have hr'' := ih (upsertMessage channelId true db x) r' hr'
      rcases hr'' with hr'' | ⟨m, hm, hc, ht⟩
      · rcases upsertMessage_rows_sound channelId db x r' hr'' with
          h | ⟨hc, ht⟩
        · left; exact h
        · right; exact ⟨x, List.mem_cons_self _ _, hc, ht⟩
      · right; exact ⟨m, List.mem_cons_of_mem _ hm, hc, ht⟩

lemma mem_cacheRows_full (db : DB) (channelId : Int) (s e : Int)
    (r : StoredMsg) (h : r ∈ cacheRows db channelId s e) :
    r ∈ db.messages ∧ r.channel_id = channelId ∧
      s ≤ r.date ∧ r.date ≤ e := by
  have hmem : r ∈ db.messages.filter (fun r =>
      r.channel_id == channelId && decide (s ≤ r.date) &&
        decide (r.date ≤ e)) :=
    (List.perm_insertionSort dateLE _).subset h
  simp only [List.mem_filter, Bool.and_eq_true, decide_eq_true_eq,
    beq_iff_eq] at hmem
  exact ⟨hmem.1, hmem.2.1.1, hmem.2.1.2, hmem.2.2⟩

lemma mem_cacheRows_of (db : DB) (channelId : Int) (s e : Int)
    (r : StoredMsg) (hr : r ∈ db.messages) (hc : r.channel_id = channelId)
    (hs : s ≤ r.date) (he : r.date ≤ e) : r ∈ cacheRows db channelId s e := by
  apply (List.perm_insertionSort dateLE _).symm.subset
  simp only [List.mem_filter, Bool.and_eq_true, decide_eq_true_eq,
    beq_iff_eq]
  exact ⟨hr, ⟨hc, hs⟩, he⟩

lemma yields_flatten_map {α : Type} (L : List YieldEvent)
    (f : MessageData → α) :
    (L.map (fun y => y.batch.map f)).flatten =
      ((L.map (fun y => y.batch)).flatten).map f := by
  induction L with
  | nil => rfl
  | cons y ys ih => simp [List.flatten_cons, ih]

lemma mem_telInput_of (channel : List RemoteMsg) (s e : Int)
    (m : RemoteMsg)
    (hchan : List.Pairwise (fun a b => a.date ≤ b.date) channel)
    (hm : m ∈ channel) (hs : s < m.date) (he : m.date ≤ e) :
    m ∈ (telegramIter channel s).takeWhile (fun m => m.date ≤ e) := by
  rw [takeWhile_eq_filter_of_sorted e (telegramIter channel s)
    (hchan.filter _)]
  unfold telegramIter
  simp only [List.mem_filter, decide_eq_true_eq]
  exact ⟨⟨hm, hs⟩, he⟩

lemma timelineFor_none (req : DateRange) :
    timelineFor req none = [⟨req.start, req.stop, Source.telegram⟩] := by
  simp [timelineFor, findGaps, findCoveredRange, buildTimeline,
    List.insertionSort]

/-- Every interior point of the requested range (strictly after the
request's start) lies strictly inside-or-at-the-right-edge of some
timeline piece: there is a piece with `start < d ≤ stop`. -/
lemma timelineFor_inner_cover (req : DateRange) (cached : Option DateRange)
    (hreq : req.start < req.stop)
    (hcache : ∀ c ∈ cached, c.start ≤ c.stop) :
    ∀ d : Int, req.start < d → d ≤ req.stop →
      ∃ s ∈ timelineFor req cached, s.start < d ∧ d ≤ s.stop := by
  obtain ⟨rs, re⟩ := req
  match cached with
  | none =>
      rw [timelineFor_none]
      intro d h1 h2
      exact ⟨_, List.mem_singleton_self _, h1, h2⟩
  | some ⟨cs, ce⟩ =>
      have hcc : cs ≤ ce := hcache ⟨cs, ce⟩ rfl
      simp only at hreq hcc
      by_cases hb : rs < cs <;> by_cases ha : re > ce <;>
        by_cases hcov : max rs cs < min re ce
      · have hseg : timelineFor ⟨rs, re⟩ (some ⟨cs, ce⟩) =
            [⟨rs, cs, Source.telegram⟩, ⟨cs, ce, Source.cache⟩,
             ⟨ce, re, Source.telegram⟩] := by
          simp only [timelineFor, findGaps, findCoveredRange, buildTimeline]
          rw [if_pos (show rs < cs from hb), if_pos (show re > ce from ha),
            if_pos (show max rs cs < min re ce from hcov)]
          simp only [List.map, List.cons_append, List.nil_append,
            List.insertionSort, List.orderedInsert]
          split_ifs <;> simp_all [segLE, TimelineSegment.mk.injEq] <;> omega
        rw [hseg]
        intro d h1 h2
        simp only [List.mem_cons, List.not_mem_nil, or_false]
        by_cases hd1 : d ≤ cs
        · exact ⟨⟨rs, cs, Source.telegram⟩, Or.inl rfl, h1, hd1⟩
        · by_cases hd2 : d ≤ ce
          · exact ⟨⟨cs, ce, Source.cache⟩, Or.inr (Or.inl rfl),
              show cs < d by omega, hd2⟩
          · exact ⟨⟨ce, re, Source.telegram⟩, Or.inr (Or.inr rfl),
              show ce < d by omega, h2⟩
      · have hseg : timelineFor ⟨rs, re⟩ (some ⟨cs, ce⟩) =
            [⟨rs, cs, Source.telegram⟩, ⟨ce, re, Source.telegram⟩] := by
          simp only [timelineFor, findGaps, findCoveredRange, buildTimeline]
          rw [if_pos (show rs < cs from hb), if_pos (show re > ce from ha),
            if_neg (show ¬max rs cs < min re ce from hcov)]
          simp only [List.map, List.cons_append, List.nil_append,
            List.append_nil, List.insertionSort, List.orderedInsert]
          split_ifs <;> simp_all [segLE, TimelineSegment.mk.injEq] <;> omega
        rw [hseg]
        intro d h1 h2
        simp only [List.mem_cons, List.not_mem_nil, or_false]
        have hcov2 : ¬cs < ce := by
          rwa [max_eq_right (le_of_lt hb), min_eq_right (le_of_lt ha)]
            at hcov
        by_cases hd1 : d ≤ cs
        · exact ⟨⟨rs, cs, Source.telegram⟩, Or.inl rfl, h1, hd1⟩
        · exact ⟨⟨ce, re, Source.telegram⟩, Or.inr rfl,
            show ce < d by omega, h2⟩
      · have hseg : timelineFor ⟨rs, re⟩ (some ⟨cs, ce⟩) =
            [⟨rs, cs, Source.telegram⟩, ⟨cs, re, Source.cache⟩] := by
          simp only [timelineFor, findGaps, findCoveredRange, buildTimeline]
          rw [if_pos (show rs < cs from hb), if_neg (show ¬re > ce from ha),
            if_pos (show max rs cs < min re ce from hcov)]
          simp only [List.map, List.cons_append, List.nil_append,
            List.append_nil, List.insertionSort, List.orderedInsert]
          split_ifs <;> simp_all [segLE, TimelineSegment.mk.injEq] <;> omega
        rw [hseg]
        intro d h1 h2
        simp only [List.mem_cons, List.not_mem_nil, or_false]
        by_cases hd1 : d ≤ cs
        · exact ⟨⟨rs, cs, Source.telegram⟩, Or.inl rfl, h1, hd1⟩
        · exact ⟨⟨cs, re, Source.cache⟩, Or.inr rfl,
            show cs < d by omega, h2⟩
      · have hseg : timelineFor ⟨rs, re⟩ (some ⟨cs, ce⟩) =
            [⟨rs, re, Source.telegram⟩] := by
          simp only [timelineFor, findGaps, findCoveredRange, buildTimeline]
          rw [if_pos (show rs < cs from hb), if_neg (show ¬re > ce from ha),
            if_neg (show ¬max rs cs < min re ce from hcov)]
          simp only [List.map, List.cons_append, List.nil_append,
            List.append_nil, List.insertionSort, List.orderedInsert]
          simp_all [TimelineSegment.mk.injEq] <;> omega
        rw [hseg]
        intro d h1 h2
        exact ⟨_, List.mem_singleton_self _, h1, h2⟩
      · have hseg : timelineFor ⟨rs, re⟩ (some ⟨cs, ce⟩) =
            [⟨rs, ce, Source.cache⟩, ⟨ce, re, Source.telegram⟩] := by
          simp only [timelineFor, findGaps, findCoveredRange, buildTimeline]
          rw [if_neg (show ¬rs < cs from hb), if_pos (show re > ce from ha),
            if_pos (show max rs cs < min re ce from hcov)]
          simp only [List.map, List.cons_append, List.nil_append,
            List.insertionSort, List.orderedInsert]
          split_ifs <;> simp_all [segLE, TimelineSegment.mk.injEq] <;> omega
        rw [hseg]
        intro d h1 h2
        simp only [List.mem_cons, List.not_mem_nil, or_false]
        by_cases hd1 : d ≤ ce
        · exact ⟨⟨rs, ce, Source.cache⟩, Or.inl rfl, h1, hd1⟩
        · exact ⟨⟨ce, re, Source.telegram⟩, Or.inr rfl,
            show ce < d by omega, h2⟩
      · have hseg : timelineFor ⟨rs, re⟩ (some ⟨cs, ce⟩) =
            [⟨rs, re, Source.telegram⟩] := by
          simp only [timelineFor, findGaps, findCoveredRange, buildTimeline]
          rw [if_neg (show ¬rs < cs from hb), if_pos (show re > ce from ha),
            if_neg (show ¬max rs cs < min re ce from hcov)]
          simp only [List.map, List.cons_append, List.nil_append,
            List.insertionSort, List.orderedInsert]
          simp_all [TimelineSegment.mk.injEq] <;> omega
        rw [hseg]
        intro d h1 h2
        exact ⟨_, List.mem_singleton_self _, h1, h2⟩
      · have hseg : timelineFor ⟨rs, re⟩ (some ⟨cs, ce⟩) =
            [⟨rs, re, Source.cache⟩] := by
          simp only [timelineFor, findGaps, findCoveredRange, buildTimeline]
          rw [if_neg (show ¬rs < cs from hb), if_neg (show ¬re > ce from ha),
            if_pos (show max rs cs < min re ce from hcov)]
          simp only [List.map, List.nil_append, List.insertionSort,
            List.orderedInsert]
          simp_all [TimelineSegment.mk.injEq] <;> omega
        rw [hseg]
        intro d h1 h2
        exact ⟨_, List.mem_singleton_self _, h1, h2⟩
      · exact absurd hreq (by omega)

/-- Every timeline piece lies inside the requested range. -/
lemma timelineFor_seg_bounds (req : DateRange) (cached : Option DateRange)
    (hreq : req.start < req.stop)
    (hcache : ∀ c ∈ cached, c.start ≤ c.stop) :
    ∀ s ∈ timelineFor req cached, req.start ≤ s.start ∧
      s.stop ≤ req.stop := by
  intro s hs
  obtain ⟨hiff, _, hne⟩ := timelineFor_partition req cached hreq hcache
  have h1 := (hiff s.start).mp ⟨s, hs, le_rfl, le_of_lt (hne s hs)⟩
  have h2 := (hiff s.stop).mp ⟨s, hs, le_of_lt (hne s hs), le_rfl⟩
  exact ⟨h1.1, h2.2⟩

/-- A `telegram` timeline segment is exactly one of the `find_gaps`
ranges: the remote listings of a sync are issued for the gaps only. -/
lemma telSegment_mem_gaps (req : DateRange) (cached : Option DateRange)
    (sg : TimelineSegment) (hsg : sg ∈ timelineFor req cached)
    (hsrc : sg.source = Source.telegram) :
    DateRange.mk sg.start sg.stop ∈ findGaps req cached := by
  unfold timelineFor buildTimeline at hsg
  have hmem := (List.perm_insertionSort segLE _).subset hsg
  rcases List.mem_append.mp hmem with h | h
  · obtain ⟨g, hg, hgeq⟩ := List.mem_map.mp h
    obtain ⟨gs, gstop⟩ := g
    rw [← hgeq]
    exact hg
  · rcases hcov : findCoveredRange req cached with _ | c
    · rw [hcov] at h; cases h
    · rw [hcov] at h
      rcases List.mem_singleton.mp h with rfl
      cases hsrc

/-- A gap's open interior is disjoint from the cached range: between its
endpoints there is nothing the cache already covers. -/
lemma findGaps_interior_disjoint (req : DateRange) (c : DateRange)
    (g : DateRange) (hg : g ∈ findGaps req (some c)) (x : Int)
    (h1 : g.start < x) (h2 : x < g.stop) :
    ¬(c.start ≤ x ∧ x ≤ c.stop) := by
  intro hx
  obtain ⟨hx1, hx2⟩ := hx
  have hg' : g ∈
      (if req.start < c.start then
        [DateRange.mk req.start (min c.start req.stop)]
      else []) ++
      (if req.stop > c.stop then
        [DateRange.mk (max c.stop req.start) req.stop]
      else []) := hg
  clear hg
  split_ifs at hg' with hb ha <;> simp at hg'
  · rcases hg' with rfl | rfl <;> simp at h1 h2 <;> omega
  · rcases hg' with rfl
    simp at h1 h2
    omega
  · rcases hg' with rfl
    simp at h1 h2
    omega

/-- A media-free, failure-free sync never sets the stream error flag. -/
lemma segLoop_clean_err (channel : List RemoteMsg) (channelId : Int)
    (channelName : Option String) (telegramBatchSize : Nat)
    (maxBytes : Option Int) (net : Nat → MediaDownloadResult)
    (diskSize : String → Option Int) (uuids : Nat → String) :
    ∀ (segs : List TimelineSegment) (st : Store) (ctr : Nat),
      (segLoop channel channelId channelName telegramBatchSize false
        maxBytes net diskSize uuids noFailure st segs ctr).2.2.2 =
        false := by
  intro segs
  induction segs with
  | nil => intro st ctr; rfl
  | cons sg rest ih =>
      intro st ctr
      obtain ⟨ss, se, src⟩ := sg
      cases src with
      | cache => simpa [segLoop] using ih st ctr
      | telegram =>
          have herr := (fetch_clean channelId channelName telegramBatchSize
            maxBytes net diskSize uuids
            ((telegramIter channel ss).takeWhile (fun m => m.date ≤ se))
            st [] 0 ctr (by intro x hx; cases hx)).1
          set fr := downloadFromTelegramBatched channel st channelId
            channelName ss se telegramBatchSize false maxBytes net
            diskSize uuids noFailure ctr with hfr
          have herr2 : fr.2.2.2 = false := herr
          simp only [segLoop, ← hfr, herr2, Bool.false_eq_true, if_false]
          exact ih _ _

/-- A sync against a session with no cached records for the conversation
is a single whole-request remote segment: it yields exactly the processed
remote window and stores its batch-upsert. -/
lemma sync_clean_run (channel : List RemoteMsg) (channelId : Int)
    (channelName : Option String) (a b : Int) (tbs : Nat)
    (maxBytes : Option Int) (net : Nat → MediaDownloadResult)
    (diskSize : String → Option Int) (uuids : Nat → String) (st0 : Store)
    (hclean : ∀ r ∈ st0.pending.messages, r.channel_id ≠ channelId) :
    syncItems channel st0 channelId channelName a b tbs
        false false maxBytes net diskSize uuids noFailure =
      ((telegramIter channel a).takeWhile (fun m => m.date ≤ b)).map
        (fun m => telegramItem (processMessage channelId channelName false
          maxBytes net diskSize m)) ∧
      (syncStore channel st0 channelId channelName a b
        tbs false false maxBytes net diskSize uuids noFailure).pending =
        batchUpsertMessages st0.pending
          (((telegramIter channel a).takeWhile (fun m => m.date ≤ b)).map
            (processMessage channelId channelName false maxBytes net
              diskSize)) channelId true := by
  have hsegs : segmentsOf st0.pending channelId a b
      false = [⟨a, b, Source.telegram⟩] := by
    unfold segmentsOf
    rw [if_neg (by simp)]
    have hfilter : st0.pending.messages.filter (fun r =>
        r.channel_id == channelId) = [] := by
      apply List.filter_eq_nil_iff.mpr
      intro r hr
      simpa using hclean r hr
    have hnone : getCachedDateRange st0.pending channelId = none := by
      unfold getCachedDateRange
      rw [hfilter]
      rfl
    rw [hnone]
    exact timelineFor_none _
  have hfc := fetch_clean channelId channelName tbs maxBytes net diskSize
    uuids ((telegramIter channel a).takeWhile (fun m => m.date ≤ b))
    st0 [] 0 0 (by intro x hx; cases hx)
  set fr := downloadFromTelegramBatched channel st0
    channelId channelName a b tbs false maxBytes net diskSize uuids
    noFailure 0 with hfr
  have herr : fr.2.2.2 = false := hfc.1
  have hpend : fr.2.1.pending = batchUpsertMessages st0.pending
      (((telegramIter channel a).takeWhile (fun m => m.date ≤ b)).map
        (processMessage channelId channelName false maxBytes net
          diskSize)) channelId true := by
    have := hfc.2.1
    simpa using this
  have hflat : (fr.1.map (fun y => y.batch)).flatten =
      ((telegramIter channel a).takeWhile (fun m => m.date ≤ b)).map
        (processMessage channelId channelName false maxBytes net
          diskSize) := by
    have := hfc.2.2
    simpa using this
  constructor
  · unfold syncItems
    rw [hsegs]
    simp only [segLoop, ← hfr, herr, Bool.false_eq_true, if_false,
      List.append_nil]
    rw [yields_flatten_map, hflat, List.map_map]
    rfl
  · unfold syncStore
    rw [hsegs]
    simp only [segLoop, ← hfr, herr, Bool.false_eq_true, if_false]
    exact hpend

lemma mem_channel_of_telInput (channel : List RemoteMsg) (s e : Int)
    (m : RemoteMsg)
    (h : m ∈ (telegramIter channel s).takeWhile (fun m => m.date ≤ e)) :
    m ∈ channel :=
  (List.filter_sublist _).subset ((List.takeWhile_sublist _).subset h)

/-- Soundness of a media-free sync walk: every yielded item's identity is
one of `S`, provided the initial cache rows and every remote message a
segment can list carry identities from `S`; and the property of the cache
rows is preserved. -/
lemma segLoop_keys_sound (channel : List RemoteMsg) (channelId : Int)
    (channelName : Option String) (telegramBatchSize : Nat)
    (maxBytes : Option Int) (net : Nat → MediaDownloadResult)
    (diskSize : String → Option Int) (uuids : Nat → String)
    (S : List (Nat × Int × String)) :
    ∀ (segs : List TimelineSegment) (st : Store) (ctr : Nat),
      (∀ r ∈ st.pending.messages, r.channel_id = channelId →
        tripleOfRow r ∈ S) →
      (∀ sg ∈ segs, ∀ m ∈ channel, sg.start < m.date →
        m.date ≤ sg.stop → tripleOfRemote m ∈ S) →
      (∀ it ∈ (segLoop channel channelId channelName telegramBatchSize
          false maxBytes net diskSize uuids noFailure st segs ctr).1,
        ∃ t ∈ S, itemKey it = keyOfTriple t) ∧
      (∀ r ∈ (segLoop channel channelId channelName telegramBatchSize
          false maxBytes net diskSize uuids noFailure st segs
          ctr).2.1.pending.messages,
        r.channel_id = channelId → tripleOfRow r ∈ S) := by
  intro segs
  induction segs with
  | nil =>
      intro st ctr hdb hsegs
      constructor
      · intro it hit
        simp [segLoop] at hit
      · exact hdb
  | cons sg rest ih =>
      intro st ctr hdb hsegs
      obtain ⟨ss, se, src⟩ := sg
      have hsegs_rest : ∀ sg' ∈ rest, ∀ m ∈ channel,
          sg'.start < m.date → m.date ≤ sg'.stop →
            tripleOfRemote m ∈ S :=
        fun sg' h => hsegs sg' (List.mem_cons_of_mem _ h)
      have hsegs_head := hsegs ⟨ss, se, src⟩ (List.mem_cons_self _ _)
      cases src with
      | cache =>
          obtain ⟨ihit, ihdb⟩ := ih st ctr hdb hsegs_rest
          constructor
          · intro it hit
            simp only [segLoop, List.mem_append] at hit
            rcases hit with hit | hit
            · obtain ⟨r, hr, rfl⟩ := List.mem_map.mp hit
              obtain ⟨hrdb, hrc, _, _⟩ :=
                mem_cacheRows_full st.pending channelId ss se r hr
              exact ⟨tripleOfRow r, hdb r hrdb hrc,
                itemKey_cacheItem _ _ _⟩
            · exact ihit it hit
          · intro r hr hc
            simp only [segLoop] at hr
            exact ihdb r hr hc
      | telegram =>
          have hfc := fetch_clean channelId channelName telegramBatchSize
            maxBytes net diskSize uuids
            ((telegramIter channel ss).takeWhile (fun m => m.date ≤ se))
            st [] 0 ctr (by intro x hx; cases hx)
          set fr := downloadFromTelegramBatched channel st channelId
            channelName ss se telegramBatchSize false maxBytes net
            diskSize uuids noFailure ctr with hfr
          have herr : fr.2.2.2 = false := hfc.1
          have hpend : fr.2.1.pending = batchUpsertMessages st.pending
              (((telegramIter channel ss).takeWhile
                (fun m => m.date ≤ se)).map
                (processMessage channelId channelName false maxBytes net
                  diskSize)) channelId true := by
            simpa using hfc.2.1
          have hflat : (fr.1.map (fun y => y.batch)).flatten =
              ((telegramIter channel ss).takeWhile
                (fun m => m.date ≤ se)).map
                (processMessage channelId channelName false maxBytes net
                  diskSize) := by
            simpa using hfc.2.2
          have hdb' : ∀ r ∈ fr.2.1.pending.messages,
              r.channel_id = channelId → tripleOfRow r ∈ S := by
            intro r hr hc
            rw [hpend] at hr
            rcases batchUpsert_rows_sound channelId _ st.pending r hr with
              h | ⟨md, hmd, _, ht⟩
            · exact hdb r h hc
            · obtain ⟨m, hm, rfl⟩ := List.mem_map.mp hmd
              rw [ht, tripleOfMsg_processMessage]
              obtain ⟨h1, h2⟩ := mem_telInput channel ss se m hm
              exact hsegs_head m
                (mem_channel_of_telInput channel ss se m hm) h1 h2
          obtain ⟨ihit, ihdb⟩ := ih fr.2.1 fr.2.2.1 hdb' hsegs_rest
          constructor
          · intro it hit
            simp only [segLoop, ← hfr, herr, Bool.false_eq_true,
              if_false, List.mem_append] at hit
            rcases hit with hit | hit
            · rw [yields_flatten_map, hflat] at hit
              obtain ⟨md, hmd, rfl⟩ := List.mem_map.mp hit
              obtain ⟨m, hm, rfl⟩ := List.mem_map.mp hmd
              refine ⟨tripleOfRemote m, ?_, ?_⟩
              · obtain ⟨h1, h2⟩ := mem_telInput channel ss se m hm
                exact hsegs_head m
                  (mem_channel_of_telInput channel ss se m hm) h1 h2
              · rw [itemKey_telegramItem, tripleOfMsg_processMessage]
            · exact ihit it hit
          · intro r hr hc
            simp only [segLoop, ← hfr, herr, Bool.false_eq_true,
              if_false] at hr
            exact ihdb r hr hc

/-- Completeness of a media-free sync walk: a remote record with a unique
id whose identity is already stored, and whose date falls strictly inside
some timeline piece, is yielded by the walk — by the cache reader if the
piece is a cache segment, by the refetch if it is a remote segment. -/
lemma segLoop_keys_complete (channel : List RemoteMsg) (channelId : Int)
    (channelName : Option String) (telegramBatchSize : Nat)
    (maxBytes : Option Int) (net : Nat → MediaDownloadResult)
    (diskSize : String → Option Int) (uuids : Nat → String)
    (m : RemoteMsg) (hm : m ∈ channel)
    (hchan : List.Pairwise (fun a b => a.date ≤ b.date) channel)
    (huniq : ∀ m' ∈ channel, m'.id = m.id → m' = m) :
    ∀ (segs : List TimelineSegment) (st : Store) (ctr : Nat),
      rowPresent st.pending channelId (tripleOfRemote m) →
      (∃ sg ∈ segs, sg.start < m.date ∧ m.date ≤ sg.stop) →
      ∃ it ∈ (segLoop channel channelId channelName telegramBatchSize
          false maxBytes net diskSize uuids noFailure st segs ctr).1,
        itemKey it = keyOfTriple (tripleOfRemote m) := by
  intro segs
  induction segs with
  | nil =>
      intro st ctr _ hseg
      obtain ⟨sg, hsg, _⟩ := hseg
      cases hsg
  | cons sg rest ih =>
      intro st ctr hpres hseg
      obtain ⟨ss, se, src⟩ := sg
      by_cases hhead : ss < m.date ∧ m.date ≤ se
      · cases src with
        | cache =>
            obtain ⟨r, hr, hrc, hrt⟩ := hpres
            have h3 := hrt
            simp only [tripleOfRow, tripleOfRemote, Prod.mk.injEq] at h3
            have hrow : r ∈ cacheRows st.pending channelId ss se := by
              apply mem_cacheRows_of st.pending channelId ss se r hr hrc
              · rw [h3.2.1]; exact le_of_lt hhead.1
              · rw [h3.2.1]; exact hhead.2
            refine ⟨cacheItem st.pending channelId r, ?_, ?_⟩
            · simp only [segLoop, List.mem_append]
              exact Or.inl (List.mem_map_of_mem _ hrow)
            · rw [itemKey_cacheItem, hrt]
        | telegram =>
            have hwin : m ∈ (telegramIter channel ss).takeWhile
                (fun m => m.date ≤ se) :=
              mem_telInput_of channel ss se m hchan hm hhead.1 hhead.2
            have hfc := fetch_clean channelId channelName
              telegramBatchSize maxBytes net diskSize uuids
              ((telegramIter channel ss).takeWhile
                (fun m => m.date ≤ se)) st [] 0 ctr
              (by intro x hx; cases hx)
            set fr := downloadFromTelegramBatched channel st channelId
              channelName ss se telegramBatchSize false maxBytes net
              diskSize uuids noFailure ctr with hfr
            have herr : fr.2.2.2 = false := hfc.1
            have hflat : (fr.1.map (fun y => y.batch)).flatten =
                ((telegramIter channel ss).takeWhile
                  (fun m => m.date ≤ se)).map
                  (processMessage channelId channelName false maxBytes
                    net diskSize) := by
              simpa using hfc.2.2
            refine ⟨telegramItem (processMessage channelId channelName
              false maxBytes net diskSize m), ?_, ?_⟩
            · simp only [segLoop, ← hfr, herr, Bool.false_eq_true,
                if_false, List.mem_append]
              left
              rw [yields_flatten_map, hflat]
              exact List.mem_map_of_mem _ (List.mem_map_of_mem _ hwin)
            · rw [itemKey_telegramItem, tripleOfMsg_processMessage]
      · have hseg' : ∃ sg' ∈ rest, sg'.start < m.date ∧
            m.date ≤ sg'.stop := by
          obtain ⟨sg', hsg', hb⟩ := hseg
          rcases List.mem_cons.mp hsg' with rfl | h
          · exact absurd hb hhead
          · exact ⟨sg', h, hb⟩
        cases src with
        | cache =>
            obtain ⟨it, hit, hkey⟩ := ih st ctr hpres hseg'
            refine ⟨it, ?_, hkey⟩
            simp only [segLoop, List.mem_append]
            exact Or.inr hit
        | telegram =>
            have hfc := fetch_clean channelId channelName
              telegramBatchSize maxBytes net diskSize uuids
              ((telegramIter channel ss).takeWhile
                (fun m => m.date ≤ se)) st [] 0 ctr
              (by intro x hx; cases hx)
            set fr := downloadFromTelegramBatched channel st channelId
              channelName ss se telegramBatchSize false maxBytes net
              diskSize uuids noFailure ctr with hfr
            have herr : fr.2.2.2 = false := hfc.1
            have hpend : fr.2.1.pending = batchUpsertMessages st.pending
                (((telegramIter channel ss).takeWhile
                  (fun m => m.date ≤ se)).map
                  (processMessage channelId channelName false maxBytes
                    net diskSize)) channelId true := by
              simpa using hfc.2.1
            have hpres' : rowPresent fr.2.1.pending channelId
                (tripleOfRemote m) := by
              rw [hpend]
              apply batchUpsert_present_preserve channelId _ _ _ hpres
              intro md hmd hid
              obtain ⟨m'', hm'', rfl⟩ := List.mem_map.mp hmd
              have hm2 : m'' = m := huniq m''
                (mem_channel_of_telInput channel ss se m'' hm'') hid
              rw [hm2, tripleOfMsg_processMessage]
            obtain ⟨it, hit, hkey⟩ := ih fr.2.1 fr.2.2.1 hpres' hseg'
            refine ⟨it, ?_, hkey⟩
            simp only [segLoop, ← hfr, herr, Bool.false_eq_true,
              if_false, List.mem_append]
            exact Or.inr hit

/-- Core of the resync analysis: after a first sync from an empty
database stored exactly the processed remote window, a second sync over
the same request yields exactly the same set of record identities. -/
lemma resync_core (channel : List RemoteMsg) (channelId : Int)
    (channelName : Option String) (a b : Int) (tbs : Nat)
    (maxBytes : Option Int) (net : Nat → MediaDownloadResult)
    (diskSize : String → Option Int) (uuids2 : Nat → String) (st1 : Store)
    (db0 : DB)
    (hchan : List.Pairwise (fun x y => x.date ≤ y.date) channel)
    (hids : (channel.map (fun x => x.id)).Nodup) (hab : a < b)
    (hclean0 : ∀ r ∈ db0.messages, r.channel_id ≠ channelId)
    (hpend1 : st1.pending = batchUpsertMessages db0
      (((telegramIter channel a).takeWhile (fun m => m.date ≤ b)).map
        (processMessage channelId channelName false maxBytes net
          diskSize)) channelId true) :
    ∀ k : Option Val × Option Val × Option Val,
      k ∈ (syncItems channel st1 channelId channelName a b tbs false false
          maxBytes net diskSize uuids2 noFailure).map itemKey ↔
        k ∈ (((telegramIter channel a).takeWhile
            (fun m => m.date ≤ b)).map (fun m =>
              telegramItem (processMessage channelId channelName false
                maxBytes net diskSize m))).map itemKey := by
  intro k
  have hinj : ∀ x ∈ channel, ∀ y ∈ channel, x.id = y.id → x = y :=
    fun x hx y hy h => List.inj_on_of_nodup_map hids hx hy h
  have hcache2 : ∀ c ∈ (getCachedDateRange st1.pending channelId).map
      (fun p => DateRange.mk p.1 p.2), c.start ≤ c.stop := by
    intro c hc
    rcases hgc : getCachedDateRange st1.pending channelId with _ | p
    · rw [hgc] at hc; cases hc
    · rw [hgc] at hc
      have hc' : (⟨p.1, p.2⟩ : DateRange) = c := by simpa using hc
      subst hc'
      exact getCachedDateRange_le st1.pending channelId p.1 p.2
        (by rw [hgc])
  have hsegs2eq : segmentsOf st1.pending channelId a b false =
      timelineFor ⟨a, b⟩ ((getCachedDateRange st1.pending channelId).map
        (fun p => DateRange.mk p.1 p.2)) := by
    unfold segmentsOf
    simp
  have hsegbounds := timelineFor_seg_bounds ⟨a, b⟩
    ((getCachedDateRange st1.pending channelId).map
      (fun p => DateRange.mk p.1 p.2)) hab hcache2
  constructor
  · intro hk
    obtain ⟨it, hit, rfl⟩ := List.mem_map.mp hk
    have hdb1 : ∀ r ∈ st1.pending.messages, r.channel_id = channelId →
        tripleOfRow r ∈ ((telegramIter channel a).takeWhile
          (fun m => m.date ≤ b)).map tripleOfRemote := by
      intro r hr hc
      rw [hpend1] at hr
      rcases batchUpsert_rows_sound channelId _ db0 r hr with
        h | ⟨md, hmd, _, ht⟩
      · exact absurd hc (hclean0 r h)
      · obtain ⟨m'', hm'', rfl⟩ := List.mem_map.mp hmd
        rw [ht, tripleOfMsg_processMessage]
        exact List.mem_map_of_mem _ hm''
    have hsegS : ∀ sg ∈ segmentsOf st1.pending channelId a b false,
        ∀ m' ∈ channel, sg.start < m'.date → m'.date ≤ sg.stop →
          tripleOfRemote m' ∈ ((telegramIter channel a).takeWhile
            (fun m => m.date ≤ b)).map tripleOfRemote := by
      intro sg hsg m' hm' h1 h2
      rw [hsegs2eq] at hsg
      obtain ⟨hb1, hb2⟩ := hsegbounds sg hsg
      exact List.mem_map_of_mem _ (mem_telInput_of channel a b m' hchan
        hm' (lt_of_le_of_lt hb1 h1) (le_trans h2 hb2))
    obtain ⟨hsound, _⟩ := segLoop_keys_sound channel channelId channelName
      tbs maxBytes net diskSize uuids2
      (((telegramIter channel a).takeWhile (fun m => m.date ≤ b)).map
        tripleOfRemote)
      (segmentsOf st1.pending channelId a b false) st1 0 hdb1 hsegS
    obtain ⟨t, htS, hkey⟩ := hsound it hit
    obtain ⟨m'', hm'', rfl⟩ := List.mem_map.mp htS
    rw [hkey]
    refine List.mem_map.mpr ⟨telegramItem (processMessage channelId
      channelName false maxBytes net diskSize m''),
      List.mem_map_of_mem _ hm'', ?_⟩
    rw [itemKey_telegramItem, tripleOfMsg_processMessage]
  · intro hk
    obtain ⟨it, hit, rfl⟩ := List.mem_map.mp hk
    obtain ⟨m, hmW, rfl⟩ := List.mem_map.mp hit
    have hmchan : m ∈ channel := mem_channel_of_telInput channel a b m hmW
    have hpres : rowPresent st1.pending channelId (tripleOfRemote m) := by
      rw [hpend1]
      have huniqm : ∀ md ∈ ((telegramIter channel a).takeWhile
          (fun m => m.date ≤ b)).map (processMessage channelId channelName
            false maxBytes net diskSize),
          md.message_id = (processMessage channelId channelName false
            maxBytes net diskSize m).message_id →
          tripleOfMsg md = tripleOfMsg (processMessage channelId
            channelName false maxBytes net diskSize m) := by
        intro md hmd hid
        obtain ⟨m'', hm'', rfl⟩ := List.mem_map.mp hmd
        have h2 : m'' = m := hinj m''
          (mem_channel_of_telInput channel a b m'' hm'') m hmchan hid
        rw [h2]
      have hps := batchUpsert_present_self channelId
        (processMessage channelId channelName false maxBytes net
          diskSize m)
        (((telegramIter channel a).takeWhile (fun m => m.date ≤ b)).map
          (processMessage channelId channelName false maxBytes net
            diskSize)) db0 (List.mem_map_of_mem _ hmW) huniqm
      rwa [tripleOfMsg_processMessage] at hps
    have hmdate : a < m.date ∧ m.date ≤ b := mem_telInput channel a b m hmW
    have hcover := timelineFor_inner_cover ⟨a, b⟩
      ((getCachedDateRange st1.pending channelId).map
        (fun p => DateRange.mk p.1 p.2)) hab hcache2 m.date hmdate.1
      hmdate.2
    rw [← hsegs2eq] at hcover
    have huniq' : ∀ m' ∈ channel, m'.id = m.id → m' = m :=
      fun m' hm' hid => hinj m' hm' m hmchan hid
    obtain ⟨it₂, hit₂, hkey₂⟩ := segLoop_keys_complete channel channelId
      channelName tbs maxBytes net diskSize uuids2 m hmchan hchan huniq'
      (segmentsOf st1.pending channelId a b false) st1 0 hpres hcover
    rw [itemKey_telegramItem, tripleOfMsg_processMessage]
    exact List.mem_map.mpr ⟨it₂, hit₂, hkey₂⟩

/-- Two remote records, dated 2 and 4, no media. -/
def c7Channel : List RemoteMsg :=
  [{ id := 1
     date := 2
     edit_date := none
     sender_id := 100
     first_name := none
     last_name := none
     username := none
     text := "first"
     reply_to := none
     post_author := none
     is_forwarded := false
     forwarded_from_channel_id := none
     media := none },
   { id := 2
     date := 4
     edit_date := none
     sender_id := 100
     first_name := none
     last_name := none
     username := none
     text := "second"
     reply_to := none
     post_author := none
     is_forwarded := false
     forwarded_from_channel_id := none
     media := none }]

/-- The session state after a first sync of `c7Channel` over `[1, 5]`
against an empty database. -/
def c7St1 : Store :=
  syncStore c7Channel (Store.ofDb DB.empty) 42 none 1 5 100 false false
    none noNet noDisk demoUuids noFailure

/-- **C7 (counterexample).** Running the sync twice over the same request
`[1, 5]` with the remote source unchanged does NOT yield the same ordered
item sequence: the first run yields the two records once each, but the
second run's leading gap segment `(1, 2]` re-fetches and re-yields the
record at the cached boundary date 2, which the cache segment `[2, 4]`
then yields again — the record appears twice. -/
theorem resync_changes_item_sequence :
    ((streamMessagesWithCache c7Channel c7St1 42 none 1 5 100 10 false
        false none noNet noDisk demoUuids noFailure).1.flatten).map
          itemKey =
      [keyOfTriple (1, 2, "first"), keyOfTriple (1, 2, "first"),
        keyOfTriple (2, 4, "second")] ∧
    ((streamMessagesWithCache c7Channel (Store.ofDb DB.empty) 42 none 1 5
        100 10 false false none noNet noDisk demoUuids
        noFailure).1.flatten).map itemKey =
      [keyOfTriple (1, 2, "first"), keyOfTriple (2, 4, "second")] ∧
    (streamMessagesWithCache c7Channel c7St1 42 none 1 5 100 10 false
        false none noNet noDisk demoUuids noFailure).1.flatten ≠
      (streamMessagesWithCache c7Channel (Store.ofDb DB.empty) 42 none 1 5
        100 10 false false none noNet noDisk demoUuids
        noFailure).1.flatten :=
  ⟨rfl, rfl, by decide⟩

/-- **C7 (amended).** Running `stream_messages_with_cache` twice over the
same `(conversation, range)` with the remote source unchanged (listed in
non-decreasing date order, record ids unique), the first run starting with
no cached records for the conversation: the second run yields exactly the
same set of record identities (message id, timestamp, body) as the first
— records at segment boundaries may be yielded twice —, its output is
still non-decreasing by timestamp, and no remote-listing segment of the
second run covers any point strictly inside its range that the cache
already covers (the covered portion is served by cache segments).  The
clean-start premise is forced: a pre-existing cached record inside the
range that the remote no longer lists is yielded by whichever run covers
it (see `resync_preexisting_row_changes_record_set`). -/
theorem resync_same_records_cache_served (channel : List RemoteMsg)
    (channelId : Int) (channelName : Option String) (a b : Int)
    (tbs cbs : Nat) (maxBytes : Option Int)
    (net : Nat → MediaDownloadResult) (diskSize : String → Option Int)
    (uuids uuids2 : Nat → String) (st0 : Store)
    (hchan : List.Pairwise (fun x y => x.date ≤ y.date) channel)
    (hids : (channel.map (fun x => x.id)).Nodup) (hab : a < b)
    (hclean : ∀ r ∈ st0.pending.messages, r.channel_id ≠ channelId) :
    ((streamMessagesWithCache channel st0 channelId
        channelName a b tbs cbs false false maxBytes net diskSize uuids
        noFailure).2.1 =
      syncStore channel st0 channelId channelName a b
        tbs false false maxBytes net diskSize uuids noFailure) ∧
    (∀ k : Option Val × Option Val × Option Val,
      k ∈ ((streamMessagesWithCache channel
          (syncStore channel st0 channelId channelName
            a b tbs false false maxBytes net diskSize uuids noFailure)
          channelId channelName a b tbs cbs false false maxBytes net
          diskSize uuids2 noFailure).1.flatten).map itemKey ↔
        k ∈ ((streamMessagesWithCache channel st0
          channelId channelName a b tbs cbs false false maxBytes net
          diskSize uuids noFailure).1.flatten).map itemKey) ∧
    List.Chain' (fun x y => itemDate x ≤ itemDate y)
      ((streamMessagesWithCache channel
        (syncStore channel st0 channelId channelName a b
          tbs false false maxBytes net diskSize uuids noFailure)
        channelId channelName a b tbs cbs false false maxBytes net
        diskSize uuids2 noFailure).1.flatten) ∧
    (∀ sg ∈ segmentsOf (syncStore channel st0 channelId
        channelName a b tbs false false maxBytes net diskSize uuids
        noFailure).pending channelId a b false,
      sg.source = Source.telegram →
      ∀ lo hi : Int,
        getCachedDateRange (syncStore channel st0
          channelId channelName a b tbs false false maxBytes net diskSize
          uuids noFailure).pending channelId = some (lo, hi) →
        ∀ x : Int, sg.start < x → x < sg.stop →
          ¬(lo ≤ x ∧ x ≤ hi)) := by
  obtain ⟨hitems1, hpend1⟩ := sync_clean_run channel channelId channelName
    a b tbs maxBytes net diskSize uuids st0 hclean
  have herr1 : syncErr channel st0 channelId channelName
      a b tbs false false maxBytes net diskSize uuids noFailure = false :=
    segLoop_clean_err channel channelId channelName tbs maxBytes net
      diskSize uuids _ _ 0
  have herr2 : syncErr channel (syncStore channel st0
      channelId channelName a b tbs false false maxBytes net diskSize
      uuids noFailure) channelId channelName a b tbs false false maxBytes
      net diskSize uuids2 noFailure = false :=
    segLoop_clean_err channel channelId channelName tbs maxBytes net
      diskSize uuids2 _ _ 0
  have hflat1 : ((streamMessagesWithCache channel st0
      channelId channelName a b tbs cbs false false maxBytes net diskSize
      uuids noFailure).1).flatten =
      syncItems channel st0 channelId channelName a b
        tbs false false maxBytes net diskSize uuids noFailure := by
    rw [streamMessagesWithCache_fst, herr1]
    simp only [Bool.false_eq_true, if_false]
    exact chunkList_join cbs _
  have hflat2 : ((streamMessagesWithCache channel
      (syncStore channel st0 channelId channelName a b
        tbs false false maxBytes net diskSize uuids noFailure)
      channelId channelName a b tbs cbs false false maxBytes net diskSize
      uuids2 noFailure).1).flatten =
      syncItems channel (syncStore channel st0 channelId
        channelName a b tbs false false maxBytes net diskSize uuids
        noFailure) channelId channelName a b tbs false false maxBytes net
        diskSize uuids2 noFailure := by
    rw [streamMessagesWithCache_fst, herr2]
    simp only [Bool.false_eq_true, if_false]
    exact chunkList_join cbs _
  have hcache2 : ∀ c ∈ (getCachedDateRange (syncStore channel
      st0 channelId channelName a b tbs false false
      maxBytes net diskSize uuids noFailure).pending channelId).map
      (fun p => DateRange.mk p.1 p.2), c.start ≤ c.stop := by
    intro c hc
    rcases hgc : getCachedDateRange (syncStore channel st0
        channelId channelName a b tbs false false maxBytes net
        diskSize uuids noFailure).pending channelId with _ | p
    · rw [hgc] at hc; cases hc
    · rw [hgc] at hc
      have hc' : (⟨p.1, p.2⟩ : DateRange) = c := by simpa using hc
      subst hc'
      exact getCachedDateRange_le _ channelId p.1 p.2 (by rw [hgc])
  have hsegs2eq : segmentsOf (syncStore channel st0
      channelId channelName a b tbs false false maxBytes net diskSize
      uuids noFailure).pending channelId a b false =
      timelineFor ⟨a, b⟩ ((getCachedDateRange (syncStore channel
        st0 channelId channelName a b tbs false false
        maxBytes net diskSize uuids noFailure).pending channelId).map
        (fun p => DateRange.mk p.1 p.2)) := by
    unfold segmentsOf
    simp
  refine ⟨rfl, ?_, ?_, ?_⟩
  · intro k
    rw [hflat2, hflat1, hitems1]
    exact resync_core channel channelId channelName a b tbs maxBytes net
      diskSize uuids2 _ st0.pending hchan hids hab hclean hpend1 k
  · have hsegs : (segmentsOf (syncStore channel st0
        channelId channelName a b tbs false false maxBytes net diskSize
        uuids noFailure).pending channelId a b false).Pairwise
        (fun x y => x.stop ≤ y.start) := by
      rw [hsegs2eq]
      exact (timelineFor_partition ⟨a, b⟩ _ hab hcache2).2.1
    have hmain := segLoop_dates channel channelId channelName tbs false
      maxBytes net diskSize uuids2 noFailure hchan
      (segmentsOf (syncStore channel st0 channelId
        channelName a b tbs false false maxBytes net diskSize uuids
        noFailure).pending channelId a b false)
      (syncStore channel st0 channelId channelName a b
        tbs false false maxBytes net diskSize uuids noFailure) 0 hsegs
    rw [hflat2]
    exact (List.chain'_map itemDate).mp hmain.1
  · intro sg hsg hsrc lo hi hgc x h1 h2
    rw [hsegs2eq, hgc] at hsg
    have hsg' : sg ∈ timelineFor ⟨a, b⟩ (some ⟨lo, hi⟩) := hsg
    exact findGaps_interior_disjoint ⟨a, b⟩ ⟨lo, hi⟩ _
      (telSegment_mem_gaps ⟨a, b⟩ (some ⟨lo, hi⟩) sg hsg' hsrc) x h1 h2

/-- Witness for `resync_same_records_cache_served` on the two-record
channel `c7Channel`, request `[1, 5]`, first run starting from the empty
session. -/
theorem resync_same_records_cache_served_witness :
    List.Pairwise (fun x y => x.date ≤ y.date) c7Channel ∧
      (c7Channel.map (fun x => x.id)).Nodup ∧ (1 : Int) < 5 ∧
      (∀ r ∈ (Store.ofDb DB.empty).pending.messages,
        r.channel_id ≠ (42 : Int)) ∧
      List.Chain' (fun x y => itemDate x ≤ itemDate y)
        ((streamMessagesWithCache c7Channel (syncStore c7Channel
          (Store.ofDb DB.empty) 42 none 1 5 100 false false none noNet
          noDisk demoUuids noFailure) 42 none 1 5 100 10 false false none
          noNet noDisk demoUuids noFailure).1.flatten) :=
  ⟨by decide, by decide, by decide, by decide,
    (resync_same_records_cache_served c7Channel 42 none 1 5 100 10 none
      noNet noDisk demoUuids demoUuids (Store.ofDb DB.empty) (by decide)
      (by decide) (by decide) (by decide)).2.2.1⟩

/-- A cached record for the conversation, dated 5, that the remote source
no longer lists. -/
def c7PreRow : StoredMsg :=
  { id := 1
    channel_id := 42
    message_id := 9
    date := 5
    edit_date := none
    sender_id := 100
    message := "old"
    media_uuid := none
    reply_to := none
    post_author := none
    is_forwarded := 0
    forwarded_from_channel_id := none }

/-- A database already holding `c7PreRow` before the first run. -/
def c7PreDb : DB := ⟨[c7PreRow], [], [], 2⟩

/-- One remote record dated 2. -/
def c7Channel2 : List RemoteMsg :=
  [{ id := 1
     date := 2
     edit_date := none
     sender_id := 100
     first_name := none
     last_name := none
     username := none
     text := "only"
     reply_to := none
     post_author := none
     is_forwarded := false
     forwarded_from_channel_id := none
     media := none }]

/-- The session state after a first sync of `c7Channel2` over `[1, 7]`
starting from `c7PreDb`. -/
def c7St1b : Store :=
  syncStore c7Channel2 (Store.ofDb c7PreDb) 42 none 1 7 100 false false
    none noNet noDisk demoUuids noFailure

/-- With a pre-existing cached record inside the range that the remote no
longer lists, the two runs yield different record SETS: the first run's
degenerate coverage `(5, 5)` produces no cache segment, so only the
remote record is yielded, while the second run's coverage `(2, 5)` adds a
cache segment that also yields the pre-existing record.  This is why the
resync equivalence requires the first run to start with no cached records
for the conversation. -/
theorem resync_preexisting_row_changes_record_set :
    keyOfTriple (9, 5, "old") ∈
      ((streamMessagesWithCache c7Channel2 c7St1b 42 none 1 7 100 10
        false false none noNet noDisk demoUuids
        noFailure).1.flatten).map itemKey ∧
    keyOfTriple (9, 5, "old") ∉
      ((streamMessagesWithCache c7Channel2 (Store.ofDb c7PreDb) 42 none 1
        7 100 10 false false none noNet noDisk demoUuids
        noFailure).1.flatten).map itemKey :=
  ⟨by decide, by decide⟩

end TgScraper
